import Mathlib

/-!
Verification of the fragility / exposure-update model of the `deus` repository.

The Python sources under `src/` are shallowly embedded: pure functions become
Lean functions, Python dicts become association lists, Python `float`
parameters that are only stored and compared become `Rat`, fallible code
returns `Except String`.  Function objects produced by the fragility-function
factories are modelled as arena indices (`Nat`): the factories cache by
`(mean, stddev)`, so two results are the identical Python object exactly when
the factory hands out the same arena index.  Code that exists only outside
`src/` (the exposure engine `gpdexposure`, the provider
`rasterintensityprovider`) is modelled from the specification and marked as
such in its doc comment.
-/

namespace Deus

/-- Uppercasing of a single character, modelling CPython's `str.upper` on the
ASCII range (the only range the repository's field names use). -/
def upperChar (c : Char) : Char :=
  if 'a' ≤ c ∧ c ≤ 'z' then Char.ofNat (c.toNat - 32) else c

/-- `s.upper()` from Python, modelled character-wise on the ASCII range. -/
def pyUpper (s : String) : String :=
  ⟨s.data.map upperChar⟩

/-- `list(range(a, b))` over Python integers. -/
def intRange (a b : Int) : List Int :=
  (List.range (b - a).toNat).map (fun k : Nat => a + (k : Int))

/-- Python `str.startswith`, on character lists. -/
def charsStartWith : List Char → List Char → Bool
  | _, [] => true
  | [], _ :: _ => false
  | c :: cs, p :: ps => c == p && charsStartWith cs ps

/-- Python `str.endswith`, on character lists (compare reversed lists). -/
def charsEndWith (cs p : List Char) : Bool :=
  charsStartWith cs.reverse p.reverse

/-- First-match lookup in an association list; models `dict.__getitem__`
(Python dict keys are unique, so first match is the match). -/
def lookupKey {α : Type} : List (String × α) → String → Option α
  | [], _ => none
  | (k, v) :: rest, key => if k = key then some v else lookupKey rest key

/-- `fragility.DamageState` (src/fragility.py lines 103-138).  The class is a
plain record; `__init__` upper-cases `intensity_field`.  The type of the
stored fragility function is a parameter: the parser instantiates it with an
arena index (`Nat`), evaluation claims instantiate it with an actual
function `Rat → Rat`. -/
structure DamageState (F : Type) where
  taxonomy : String
  from_state : Int
  to_state : Int
  intensity_field : String
  intensity_unit : String
  fragility_function : F
deriving DecidableEq, Repr

/-- `DamageState.__init__`: stores the fields, upper-casing
`intensity_field` (src/fragility.py line 135). -/
def mkDamageState {F : Type} (taxonomy : String) (from_state to_state : Int)
    (intensity_field intensity_unit : String) (fragility_function : F) :
    DamageState F :=
  { taxonomy := taxonomy
    from_state := from_state
    to_state := to_state
    intensity_field := pyUpper intensity_field
    intensity_unit := intensity_unit
    fragility_function := fragility_function }

/-- `DamageState.get_probability_for_intensity` (src/fragility.py lines
140-165): look the state's field up in both dicts (`KeyError` if absent),
raise `"Not supported unit"` when the supplied unit differs from the stored
one, otherwise apply the fragility function to the looked-up value. -/
def get_probability_for_intensity (ds : DamageState (Rat → Rat))
    (intensity : List (String × Rat)) (units : List (String × String)) :
    Except String Rat :=
  let field := ds.intensity_field
  match lookupKey intensity field with
  | none => .error "KeyError"
  | some value =>
    match lookupKey units field with
    | none => .error "KeyError"
    | some unit =>
      if unit ≠ ds.intensity_unit then .error "Not supported unit"
      else .ok (ds.fragility_function value)

/-- One entry of a factory cache: the `(mean, stddev)` key together with the
arena index of the function object constructed for it. -/
structure FFEntry where
  mean : Rat
  stddev : Rat
  fid : Nat
deriving DecidableEq, Repr

/-- State of `LogncdfFactory` / `NormCdfFactory` (src/fragility.py lines
32-77).  Both factories keep a dict keyed by `(mean, stddev)`; a miss
constructs a fresh function object (a fresh arena index here) and stores it,
a hit returns the stored object.  `next` is the next unused arena index. -/
structure FactoryState where
  cache : List FFEntry
  next : Nat
deriving DecidableEq, Repr

/-- The empty cache a factory starts with (`__init__`). -/
def FactoryState.init : FactoryState := ⟨[], 0⟩

/-- `LogncdfFactory.__call__` / `NormCdfFactory.__call__` (src/fragility.py
lines 40-56 and 65-77): look the key up in the cache, otherwise allocate a
new function object and remember it. -/
def factoryCall (st : FactoryState) (mean stddev : Rat) : Nat × FactoryState :=
  match st.cache.find? (fun e => e.mean = mean ∧ e.stddev = stddev) with
  | some e => (e.fid, st)
  | none => (st.next, ⟨st.cache ++ [⟨mean, stddev, st.next⟩], st.next + 1⟩)

/-- `fragility.CachedFunction` (src/fragility.py lines 80-94): wraps a pure
inner function and memoizes results by input value. -/
structure CachedFunction where
  inner_function : Rat → Rat
  cache : List (Rat × Rat)

/-- `CachedFunction.__call__`: return the cached result when present,
otherwise evaluate the inner function and store the result. -/
def CachedFunction.call (cf : CachedFunction) (value : Rat) :
    Rat × CachedFunction :=
  match cf.cache.find? (fun p => p.1 = value) with
  | some p => (p.2, cf)
  | none =>
    (cf.inner_function value,
     { cf with cache := cf.cache ++ [(value, cf.inner_function value)] })

/-- The memoization cache is consistent with the wrapped pure function. -/
def CachedFunction.Consistent (f : Rat → Rat) (cf : CachedFunction) : Prop :=
  cf.inner_function = f ∧ ∀ p ∈ cf.cache, p.2 = f p.1

/-- Numeric value of a decimal digit character. -/
def digitVal (c : Char) : Nat := c.toNat - 48

/-- `re.search(r"(\d)_mean$", key)` from src/fragility.py line 217: because
of the `$` anchor the only possible match puts the digit six characters from
the end, so the search succeeds exactly when the key ends in `_mean`
preceded by a digit, and returns that digit. -/
def searchToState (cs : List Char) : Option Nat :=
  match cs.reverse with
  | 'n' :: 'a' :: 'e' :: 'm' :: '_' :: d :: _ =>
    if d.isDigit then some (digitVal d) else none
  | _ => none

/-- `re.search(r"^D_?(\d)_", key)` from src/fragility.py line 220: anchored
at the start; the greedy `_?` first tries to consume an underscore and
backtracks to the empty match if the rest fails. -/
def searchFromState (cs : List Char) : Option Nat :=
  match cs with
  | 'D' :: '_' :: d :: '_' :: _ => if d.isDigit then some (digitVal d) else none
  | 'D' :: '_' :: _ => none
  | 'D' :: d :: '_' :: _ => if d.isDigit then some (digitVal d) else none
  | _ => none

/-- The transition encoded by a `D…_mean` parameter name (src/fragility.py
lines 216-226): `to_state` from the digit before `_mean`, `from_state` from
the digit after the leading `D`; when both regexes read the same digit the
key is of the `D{n}_mean` form and `from_state` is set to `0`.  A failed
regex search is an `AttributeError` (`.group` on `None`). -/
def parseTransition (key : String) : Except String (Int × Int) :=
  match searchToState key.data, searchFromState key.data with
  | some t, some f =>
    .ok (if (t : Int) = (f : Int) then 0 else (f : Int), (t : Int))
  | _, _ => .error "AttributeError"

/-- Python `key.replace("_mean", "_stddev")`, left-to-right on
non-overlapping occurrences. -/
def replaceMeanStddevChars : List Char → List Char
  | '_' :: 'm' :: 'e' :: 'a' :: 'n' :: rest =>
    '_' :: 's' :: 't' :: 'd' :: 'd' :: 'e' :: 'v' :: replaceMeanStddevChars rest
  | c :: rest => c :: replaceMeanStddevChars rest
  | [] => []

/-- `key.replace("_mean", "_stddev")` on strings (src/fragility.py line 230). -/
def replaceMeanStddev (key : String) : String :=
  ⟨replaceMeanStddevChars key.data⟩

/-- One element of the `data` list of a fragility definition
(src/fragility.py lines 198-201 and the JSON layout used by the tests):
the fixed keys `taxonomy`, `imt`, `imu` and the remaining numeric
`D…_mean` / `D…_stddev` parameters, in dict (insertion) order. -/
structure Dataset where
  taxonomy : String
  imt : String
  imu : String
  params : List (String × Rat)
deriving DecidableEq, Repr

/-- `fragility.Fragility._data`: the `meta.shape`, `meta.id` and the dataset
list of a fragility definition. -/
structure Fragility where
  shape : String
  id : String
  data : List Dataset
deriving DecidableEq, Repr

/-- `fragility.FragilityProvider` (src/fragility.py lines 311-332): the
per-taxonomy damage-state lists (a dict, in first-append order) and the
schema identifier. -/
structure FragilityProvider where
  damage_states_by_taxonomy : List (String × List (DamageState Nat))
  schema : String
deriving DecidableEq, Repr

/-- `FragilityProvider.get_damage_states_for_taxonomy`.  The backing dict is
a `defaultdict(list)`, so an unknown taxonomy yields the empty list. -/
def FragilityProvider.get_damage_states_for_taxonomy
    (p : FragilityProvider) (taxonomy : String) : List (DamageState Nat) :=
  (lookupKey p.damage_states_by_taxonomy taxonomy).getD []

/-- The `D…_mean` parameter keys of a dataset, in order: the filter
`k.startswith("D") and k.endswith("_mean")` of src/fragility.py lines
203-207. -/
def meanKeys (params : List (String × Rat)) : List String :=
  (params.map Prod.fst).filter
    (fun k => charsStartWith k.data ['D'] && charsEndWith k.data "_mean".data)

/-- The body of the per-key loop of
`to_fragility_provider_with_specified_fragility_function`
(src/fragility.py lines 208-242): decode the transition from the key name
(`AttributeError` when a regex fails), fetch mean and stddev (`KeyError`
when the `_stddev` twin is missing), build the fragility function through
the factory and construct the `DamageState`. -/
def processKey (d : Dataset) (key : String) (st : FactoryState) :
    Except String (DamageState Nat × FactoryState) :=
  match parseTransition key with
  | .error e => .error e
  | .ok (from_state, to_state) =>
    match lookupKey d.params key,
          lookupKey d.params (replaceMeanStddev key) with
    | some mean, some stddev =>
      let r := factoryCall st mean stddev
      .ok (mkDamageState d.taxonomy from_state to_state d.imt d.imu r.1, r.2)
    | _, _ => .error "KeyError"

/-- Process a list of `D…_mean` keys of one dataset in order, threading the
factory cache, collecting one `DamageState` per key. -/
def processKeys (d : Dataset) :
    List String → FactoryState →
    Except String (List (DamageState Nat) × FactoryState)
  | [], st => .ok ([], st)
  | k :: ks, st =>
    match processKey d k st with
    | .error e => .error e
    | .ok (ds, st') =>
      match processKeys d ks st' with
      | .error e => .error e
      | .ok (rest, st'') => .ok (ds :: rest, st'')

/-- Parse one taxonomy record: the damage states produced by its `D…_mean`
keys, in key order. -/
def processDataset (d : Dataset) (st : FactoryState) :
    Except String (List (DamageState Nat) × FactoryState) :=
  processKeys d (meanKeys d.params) st

/-- Appending a dataset's damage states under its taxonomy, modelling
`defaultdict(list)` + `append` (src/fragility.py lines 194 and 242): an
existing key grows at the end, a new key is added in first-append order and
only when something is appended. -/
def insertTax (m : List (String × List (DamageState Nat))) (tax : String)
    (dss : List (DamageState Nat)) :
    List (String × List (DamageState Nat)) :=
  match dss with
  | [] => m
  | _ =>
    if (lookupKey m tax).isSome then
      m.map (fun p => if p.1 = tax then (p.1, p.2 ++ dss) else p)
    else m ++ [(tax, dss)]

/-- The dataset loop of
`to_fragility_provider_with_specified_fragility_function`
(src/fragility.py lines 198-242), threading the factory cache and the
per-taxonomy dict. -/
def processDatasets :
    List Dataset → List (String × List (DamageState Nat)) → FactoryState →
    Except String (List (String × List (DamageState Nat)) × FactoryState)
  | [], m, st => .ok (m, st)
  | d :: rest, m, st =>
    match processDataset d st with
    | .error e => .error e
    | .ok (dss, st') => processDatasets rest (insertTax m d.taxonomy dss) st'

/-- One iteration of the nested completion loops of
`Fragility._add_damage_states_if_missing_to_dataset_list`
(src/fragility.py lines 283-308): if no damage state of the current list
has the pair `(from_damage_state, to_damage_state)`, look for the first one
at `(from_damage_state - 1, to_damage_state)` and, when found, append a new
`DamageState` with the `from` state incremented and the same fragility
function object. -/
def completionStep {F : Type} (fs ts : Int) (cur : List (DamageState F)) :
    List (DamageState F) :=
  match cur.filter (fun ds => ds.from_state = fs ∧ ds.to_state = ts) with
  | _ :: _ => cur
  | [] =>
    match cur.filter (fun ds => ds.from_state = fs - 1 ∧ ds.to_state = ts) with
    | [] => cur
    | ds_lower :: _ =>
      cur ++ [mkDamageState ds_lower.taxonomy (ds_lower.from_state + 1)
        ds_lower.to_state ds_lower.intensity_field ds_lower.intensity_unit
        ds_lower.fragility_function]

/-- `Fragility._add_damage_states_if_missing_to_dataset_list`
(src/fragility.py lines 275-308): `max_damage_state` is the maximum
`to_state` of the list (Python `max`, which needs a non-empty list — the
parser only ever creates non-empty per-taxonomy lists), then the doubly
nested loop `for from in range(0, max)` / `for to in range(1, max + 1)`
mutates the list through `completionStep`. -/
def add_damage_states_if_missing_to_dataset_list {F : Type}
    (damage_states : List (DamageState F)) : List (DamageState F) :=
  match damage_states with
  | [] => []
  | d :: rest =>
    let max_damage_state := (rest.map (·.to_state)).foldl max d.to_state
    (intRange 0 max_damage_state).foldl
      (fun cur fs =>
        (intRange 1 (max_damage_state + 1)).foldl
          (fun cur2 ts => completionStep fs ts cur2) cur)
      damage_states

/-- `Fragility._add_damage_states_if_missing` (src/fragility.py lines
263-273): run the completion on every taxonomy's list. -/
def add_damage_states_if_missing
    (m : List (String × List (DamageState Nat))) :
    List (String × List (DamageState Nat)) :=
  m.map (fun p => (p.1, add_damage_states_if_missing_to_dataset_list p.2))

/-- `Fragility.to_fragility_provider_with_specified_fragility_function`
(src/fragility.py lines 185-247) for a given factory state: parse every
dataset, complete the damage-state lattice, and pack the result with the
`meta.id` schema. -/
def to_fragility_provider_with_specified_fragility_function
    (frag : Fragility) (st : FactoryState) :
    Except String (FragilityProvider × FactoryState) :=
  match processDatasets frag.data [] st with
  | .error e => .error e
  | .ok (m, st') => .ok (⟨add_damage_states_if_missing m, frag.id⟩, st')

/-- `Fragility.to_fragility_provider` (src/fragility.py lines 249-261):
dispatch on `meta.shape` into `SUPPORTED_FRAGILITY_FUNCTION_FACTORIES`
(a `KeyError` for an unsupported shape); both supported factories start
from a fresh module-level cache and behave identically at the level of
object identity, which is what the arena models. -/
def to_fragility_provider (frag : Fragility) : Except String FragilityProvider :=
  if frag.shape = "logncdf" ∨ frag.shape = "normcdf" then
    match to_fragility_provider_with_specified_fragility_function frag
        FactoryState.init with
    | .error e => .error e
    | .ok (p, _) => .ok p
  else .error "KeyError"

/-- The bounding box of a raster (`raster_reader.bounds` of rasterio, as
consumed by src/rasterwrapper.py). -/
structure RasterBounds where
  left : Rat
  right : Rat
  bottom : Rat
  top : Rat
deriving DecidableEq, Repr

/-- `rasterwrapper.RasterWrapper`: the bounds of the backing reader plus the
cell lookup `get_sample` (coordinate transform into raster index space and
array access), modelled as an abstract total value function. -/
structure RasterWrapper where
  bounds : RasterBounds
  sample : Rat → Rat → Rat

/-- `RasterWrapper.is_location_in_bbox` (src/rasterwrapper.py lines 31-46). -/
def is_location_in_bbox (rw : RasterWrapper) (lon lat : Rat) : Bool :=
  if lon < rw.bounds.left then false
  else if lon > rw.bounds.right then false
  else if lat < rw.bounds.bottom then false
  else if lat > rw.bounds.top then false
  else true

/-- Modelled from the spec: `rasterintensityprovider.RasterIntensityProvider`
is not under `src/` (only its tests and callers are).  Per §4.1 of the spec
a grid source does a "cell lookup by coordinate transform into raster index
space, returning the value at that cell, or a configured not-available
sentinel — e.g. `0.0` — if the coordinate falls outside the grid's bounding
box"; the bounding-box test is the embedded
`RasterWrapper.is_location_in_bbox`. -/
structure RasterIntensityProvider where
  raster : RasterWrapper
  kind : String
  unit : String
  na_value : Rat

/-- Modelled from the spec: `get_nearest` of the raster intensity provider —
inside the bounding box return the sampled cell value, outside return the
configured not-available sentinel; the unit is attached in both cases and no
error is ever raised. -/
def RasterIntensityProvider.get_nearest (p : RasterIntensityProvider)
    (lon lat : Rat) : List (String × Rat) × List (String × String) :=
  if is_location_in_bbox p.raster lon lat then
    ([(p.kind, p.raster.sample lon lat)], [(p.kind, p.unit)])
  else
    ([(p.kind, p.na_value)], [(p.kind, p.unit)])

/-- Modelled from the spec: the cumulative exceedance probabilities used by
the per-cell redistribution step of `gpdexposure` (module not under `src/`).
§4.3: "evaluate the DamageState `(s,t)` to obtain cumulative exceedance
probability `P(t)`; by convention `P(max_state+1) = 0`". -/
def cumulative_prob (P : Int → Rat) (max_state t : Int) : Rat :=
  if t = max_state + 1 then 0 else P t

/-- Modelled from the spec: "The probability mass assigned to exactly
reaching state `t` from `s` is `P(t) - P(t+1)`" (§4.3, with the
`P(max_state+1) = 0` convention). -/
def transition_mass (P : Int → Rat) (max_state t : Int) : Rat :=
  cumulative_prob P max_state t - cumulative_prob P max_state (t + 1)

/-- Modelled from the spec: "buildings remaining in state `s` get the
residual mass `1 - P(s+1)`" (§4.3). -/
def remain_mass (P : Int → Rat) (max_state s : Int) : Rat :=
  1 - cumulative_prob P max_state (s + 1)

/-- Modelled from the spec: the target states "`t` in `(s+1 .. max_state]`"
of the redistribution step (§4.3). -/
def target_states (s max_state : Int) : List Int :=
  intRange (s + 1) (max_state + 1)

/-- Modelled from the spec: the post-transition building counts of one
redistribution step — `b` is "redistributed across target states
proportionally to these probability masses", i.e. the remaining count is
`b * (1 - P(s+1))` and the count reaching `t` is `b * (P(t) - P(t+1))`. -/
def post_transition_counts (b : Rat) (P : Int → Rat) (max_state s : Int) :
    List Rat :=
  b * remain_mass P max_state s ::
    (target_states s max_state).map (fun t => b * transition_mass P max_state t)

/-- All decimal digits, non-empty: the digit block accepted by Python
`int()`. -/
def digitsToNat : List Char → Option Nat
  | [] => none
  | [c] => if c.isDigit then some (digitVal c) else none
  | c :: rest =>
    if c.isDigit then
      match digitsToNat rest with
      | some n => some (digitVal c * 10 ^ rest.length + n)
      | none => none
    else none

/-- Python `int(s)` on canonical integer literals: an optional minus sign
followed by decimal digits (the damage-state labels of the exposure data are
of the form `D0`, `D1`, …). -/
def pyInt : List Char → Option Int
  | '-' :: rest => (digitsToNat rest).map (fun n => -(n : Int))
  | cs => (digitsToNat cs).map (fun n => (n : Int))

/-- `create_shapefile.dx_to_int` (src/create_shapefile.py lines 99-101):
`int(ds[1:])`, turning a label `D3` into `3`. -/
def dx_to_int (ds : String) : Option Int :=
  pyInt (ds.data.drop 1)

/-- `create_shapefile.compute_weighted_damage` (src/create_shapefile.py
lines 104-118): parse every damage label (Python raises on a malformed
label, hence `Option`), require the two parallel numpy arrays to have equal
length (numpy raises on a length mismatch apart from degenerate broadcast
cases), and return `sum(buildings*damage)/sum(buildings)` guarded by the
`buildings_sum != 0` test, `0` otherwise. -/
def compute_weighted_damage (buildings : List Rat) (damage : List String) :
    Option Rat :=
  match damage.mapM dx_to_int with
  | none => none
  | some dmg =>
    if buildings.length ≠ dmg.length then none
    else if buildings.sum ≠ 0 then
      some ((List.zipWith (fun b z => b * (z : Rat)) buildings dmg).sum
        / buildings.sum)
    else some 0

/-- Mathematical model of `scipy.stats.norm(loc=0, scale=1).cdf`: the
standard normal cumulative distribution function, written through the
Gaussian integral from the distribution's median. -/
noncomputable def stdNormalCdf (z : ℝ) : ℝ :=
  1 / 2 + (∫ t in (0 : ℝ)..z, Real.exp (-(t ^ 2) / 2)) / Real.sqrt (2 * Real.pi)

/-- Mathematical model of the function built by `LogncdfFactory.__call__`
(src/fragility.py lines 40-56): `lognorm(scale=exp(mean), s=stddev).cdf`,
the CDF of a log-normal distribution whose underlying normal variable has
mean `mean` and standard deviation `stddev`; it is `0` on `x ≤ 0` and
`Φ((log x - mean)/stddev)` on `x > 0`. -/
noncomputable def logncdf (mean stddev x : ℝ) : ℝ :=
  if x ≤ 0 then 0 else stdNormalCdf ((Real.log x - mean) / stddev)

/-- The parsed damage-state list of a taxonomy supplied only with the
baseline transitions `(0, k)` for `k = 1..N` (what the parser produces from
`D1_mean … DN_mean` keys): one state per `k`, in ascending order, with an
arbitrary assignment `f` of fragility-function objects (arena indices). -/
def baselineStates (tax fld unit : String) (N : Nat) (f : Nat → Nat) :
    List (DamageState Nat) :=
  (List.range N).map
    (fun k => mkDamageState tax 0 ((k + 1 : Nat) : Int) fld unit (f (k + 1)))

/-- Projection of a damage state to the data the completion algorithm
inspects and copies: `(from_state, to_state, fragility_function)`. -/
def dsTriple {F : Type} (ds : DamageState F) : Int × Int × F :=
  (ds.from_state, ds.to_state, ds.fragility_function)

/-- `completionStep` transported along `dsTriple`: the completion loop body
reads and writes nothing but the three projected fields. -/
def completionStepT (fs ts : Int) (cur : List (Int × Int × Nat)) :
    List (Int × Int × Nat) :=
  match cur.filter (fun x => x.1 = fs ∧ x.2.1 = ts) with
  | _ :: _ => cur
  | [] =>
    match cur.filter (fun x => x.1 = fs - 1 ∧ x.2.1 = ts) with
    | [] => cur
    | x :: _ => cur ++ [(x.1 + 1, x.2.1, x.2.2)]

/-- The first `n` entries `(fs, 1, f 1) … (fs, n, f n)` of one completed
`from`-row. -/
def tblock (f : Nat → Nat) (fs : Int) (n : Nat) : List (Int × Int × Nat) :=
  (List.range n).map (fun k => (fs, ((k + 1 : Nat) : Int), f (k + 1)))

/-- The rows the completion appends for `from_state = 1 … i` when run on
baseline data with `N` states per row. -/
def textras (f : Nat → Nat) (N : Nat) : Nat → List (Int × Int × Nat)
  | 0 => []
  | i + 1 => textras f N i ++ tblock f ((i + 1 : Nat) : Int) N

/-- A decimal digit character for `n ≤ 9`. -/
def digitChar (n : Nat) : Char := Char.ofNat (48 + n)

/-! ## Helper lemmas -/

lemma find?_append_left {α : Type} {p : α → Bool} {l l' : List α} {x : α}
    (h : l.find? p = some x) : (l ++ l').find? p = some x := by
  rw [List.find?_append, h, Option.or]

lemma factoryCall_snd_find (st : FactoryState) (mean stddev : Rat) :
    (factoryCall st mean stddev).2.cache.find?
      (fun e => e.mean = mean ∧ e.stddev = stddev)
      = some ⟨mean, stddev, (factoryCall st mean stddev).1⟩ := by
  unfold factoryCall
  cases hf : st.cache.find? (fun e => e.mean = mean ∧ e.stddev = stddev) with
  | some e =>
    have hp := List.find?_some hf
    simp only [decide_eq_true_eq] at hp
    simpa [← hp.1, ← hp.2] using hf
  | none =>
    simp only
    rw [List.find?_append, hf, Option.or]
    simp [List.find?]

lemma factoryCall_of_find {st : FactoryState} {mean stddev : Rat} {e : FFEntry}
    (h : st.cache.find? (fun e => e.mean = mean ∧ e.stddev = stddev) = some e) :
    factoryCall st mean stddev = (e.fid, st) := by
  unfold factoryCall
  rw [h]

lemma factoryCall_idem (st : FactoryState) (mean stddev : Rat) :
    factoryCall (factoryCall st mean stddev).2 mean stddev
      = factoryCall st mean stddev := by
  rw [factoryCall_of_find (factoryCall_snd_find st mean stddev)]

lemma factoryCall_cache_extend (st : FactoryState) (mean stddev : Rat) :
    ∃ ext, (factoryCall st mean stddev).2.cache = st.cache ++ ext := by
  unfold factoryCall
  cases hf : st.cache.find? (fun e => e.mean = mean ∧ e.stddev = stddev) with
  | some e => exact ⟨[], by simp⟩
  | none => exact ⟨[⟨mean, stddev, st.next⟩], rfl⟩

lemma CachedFunction.call_consistent {f : Rat → Rat} {cf : CachedFunction}
    (h : cf.Consistent f) (x : Rat) :
    (cf.call x).1 = f x ∧ (cf.call x).2.Consistent f := by
  unfold CachedFunction.call
  cases hf : cf.cache.find? (fun p => p.1 = x) with
  | some p =>
    have hmem := List.mem_of_find?_eq_some hf
    have hpx : p.1 = x := by simpa using List.find?_some hf
    simp only
    exact ⟨by rw [h.2 p hmem, hpx], h⟩
  | none =>
    refine ⟨by rw [h.1], h.1, ?_⟩
    intro p hp
    rcases List.mem_append.mp hp with hp | hp
    · exact h.2 p hp
    · simp only [List.mem_singleton] at hp
      rw [hp, h.1]

/-! ## C6 — cache transparency and identity preservation -/

/-- C6: caching is observationally transparent and identity-preserving.
Calling the same factory twice with equal `(mean, stddev)` returns the
identical function object (the same arena index, with the cache unchanged
by the second call); and for a pure inner function `f`, a freshly
constructed `CachedFunction` returns `f x` on the first call and on every
repeated call (any consistent cache state keeps returning `f x` and stays
consistent), so evaluating the same damage state at the same intensity
twice returns identical results with no other observable effect. -/
theorem C6_caching_transparent :
    (∀ (st : FactoryState) (mean stddev : Rat),
      factoryCall (factoryCall st mean stddev).2 mean stddev
        = factoryCall st mean stddev)
    ∧ (∀ (f : Rat → Rat) (x : Rat),
      (CachedFunction.call ⟨f, []⟩ x).1 = f x
      ∧ ((CachedFunction.call ⟨f, []⟩ x).2.call x).1 = f x)
    ∧ (∀ (f : Rat → Rat) (cf : CachedFunction) (x : Rat),
      cf.Consistent f → (cf.call x).1 = f x ∧ (cf.call x).2.Consistent f) := by
  refine ⟨factoryCall_idem, fun f x => ?_, fun f cf x h =>
    CachedFunction.call_consistent h x⟩
  have h0 : CachedFunction.Consistent f ⟨f, []⟩ := ⟨rfl, by simp⟩
  have h1 := CachedFunction.call_consistent h0 x
  have h2 := CachedFunction.call_consistent h1.2 x
  exact ⟨h1.1, h2.1⟩

/-- Witness for C6: concrete cache state discharging the consistency
hypothesis. -/
theorem C6_caching_transparent_witness :
    CachedFunction.Consistent (fun v => v + 1) ⟨fun v => v + 1, []⟩
    ∧ (CachedFunction.call ⟨fun v => v + 1, []⟩ 3).1 = (fun v : Rat => v + 1) 3 :=
  ⟨⟨rfl, by simp⟩,
    (C6_caching_transparent.2.2 (fun v => v + 1) ⟨fun v => v + 1, []⟩ 3
      ⟨rfl, by simp⟩).1⟩

/-! ## C4 — evaluation and unit mismatch -/

/-- C4: for any damage state (as constructed by `DamageState.__init__`, which
canonicalizes `intensity_field` to upper case) and any value/unit dicts that
both contain the canonical field, `get_probability_for_intensity` errors
exactly when the supplied unit string differs from the declared
`intensity_unit` (plain string comparison, no conversion), and otherwise
returns the fragility function applied to the looked-up value. -/
theorem C4_unit_mismatch (taxonomy : String) (fs ts : Int)
    (field unit : String) (f : Rat → Rat)
    (intensity : List (String × Rat)) (units : List (String × String))
    (v : Rat) (u : String)
    (hv : lookupKey intensity (pyUpper field) = some v)
    (hu : lookupKey units (pyUpper field) = some u) :
    ((∃ e, get_probability_for_intensity
        (mkDamageState taxonomy fs ts field unit f) intensity units
        = .error e) ↔ u ≠ unit)
    ∧ (u = unit →
      get_probability_for_intensity
        (mkDamageState taxonomy fs ts field unit f) intensity units
        = .ok (f v)) := by
  have hfield : (mkDamageState taxonomy fs ts field unit f).intensity_field
      = pyUpper field := rfl
  simp only [get_probability_for_intensity, hfield, hv, hu]
  simp only [mkDamageState]
  by_cases h : u = unit
  · subst h
    simp
  · simp [h]

/-- Witness for C4: a unit-matching evaluation at a concrete damage state. -/
theorem C4_unit_mismatch_witness :
    lookupKey [("PGA", (3 : Rat))] (pyUpper "pga") = some 3
    ∧ lookupKey [("PGA", "g")] (pyUpper "pga") = some "g"
    ∧ get_probability_for_intensity
        (mkDamageState "URM1" 0 1 "pga" "g" (fun v => v * 2))
        [("PGA", (3 : Rat))] [("PGA", "g")] = .ok (3 * 2) :=
  ⟨by decide, by decide,
    (C4_unit_mismatch "URM1" 0 1 "pga" "g" (fun v => v * 2)
        [("PGA", (3 : Rat))] [("PGA", "g")] 3 "g"
        (by decide) (by decide)).2 rfl⟩

/-! ## C7 — out-of-bounds grid lookup returns the sentinel -/

/-- C7: a grid intensity lookup at a coordinate outside the raster's
bounding box returns the configured not-available sentinel with the
configured unit — it is a total function, never an error. -/
theorem C7_out_of_bounds_sentinel (p : RasterIntensityProvider)
    (lon lat : Rat)
    (h : lon < p.raster.bounds.left ∨ lon > p.raster.bounds.right
      ∨ lat < p.raster.bounds.bottom ∨ lat > p.raster.bounds.top) :
    p.get_nearest lon lat = ([(p.kind, p.na_value)], [(p.kind, p.unit)]) := by
  have hbox : is_location_in_bbox p.raster lon lat = false := by
    unfold is_location_in_bbox
    split_ifs with h1 h2 h3 h4
    · rfl
    · rfl
    · rfl
    · rfl
    · rcases h with h | h | h | h
      · exact absurd h h1
      · exact absurd h h2
      · exact absurd h h3
      · exact absurd h h4
  unfold RasterIntensityProvider.get_nearest
  rw [hbox]
  simp

/-- Witness for C7: the scenario of `test_basics.TestBasics.test_raster` —
raster bounds `[14,16] × [50,52]`, sentinel `0.0`, lookup at
`(lon=13, lat=50)` returns `0.0` with the configured unit. -/
theorem C7_out_of_bounds_sentinel_witness :
    ((13 : Rat) < 14 ∨ (13 : Rat) > 16 ∨ (50 : Rat) < 50 ∨ (50 : Rat) > 52)
    ∧ RasterIntensityProvider.get_nearest
        ⟨⟨⟨14, 16, 50, 52⟩, fun _ _ => 999⟩, "testdata", "unitless", 0⟩ 13 50
      = ([("testdata", 0)], [("testdata", "unitless")]) :=
  ⟨Or.inl (by norm_num),
    C7_out_of_bounds_sentinel
      ⟨⟨⟨14, 16, 50, 52⟩, fun _ _ => 999⟩, "testdata", "unitless", 0⟩ 13 50
      (Or.inl (by norm_num))⟩

/-! ## intRange lemmas -/

lemma intRange_eq_nil {a b : Int} (h : b ≤ a) : intRange a b = [] := by
  unfold intRange
  have : (b - a).toNat = 0 := by omega
  rw [this]
  rfl

lemma intRange_cons {a b : Int} (h : a < b) :
    intRange a b = a :: intRange (a + 1) b := by
  unfold intRange
  have h1 : (b - a).toNat = (b - (a + 1)).toNat + 1 := by omega
  rw [h1, List.range_succ_eq_map]
  simp only [List.map_cons, List.map_map]
  refine congrArg₂ _ (by omega) (List.map_congr_left fun k _ => ?_)
  simp only [Function.comp_apply, Nat.succ_eq_add_one]
  push_cast
  ring

lemma intRange_append_last {a b : Int} (h : a ≤ b) :
    intRange a (b + 1) = intRange a b ++ [b] := by
  unfold intRange
  have h1 : (b + 1 - a).toNat = (b - a).toNat + 1 := by omega
  rw [h1, List.range_succ, List.map_append]
  simp only [List.map_cons, List.map_nil]
  refine congrArg _ (congrArg₂ _ (by omega) rfl)

lemma mem_intRange {a b x : Int} : x ∈ intRange a b ↔ a ≤ x ∧ x < b := by
  unfold intRange
  simp only [List.mem_map, List.mem_range]
  constructor
  · rintro ⟨k, hk, rfl⟩
    omega
  · rintro ⟨h1, h2⟩
    exact ⟨(x - a).toNat, by omega, by omega⟩

lemma sum_telescope_intRange (g : Int → Rat) :
    ∀ (n : Nat) (a : Int),
      ((intRange a (a + n)).map (fun t => g t - g (t + 1))).sum
        = g a - g (a + n) := by
  intro n
  induction n with
  | zero => intro a; rw [intRange_eq_nil (by omega)]; simp
  | succ m ih =>
    intro a
    rw [intRange_cons (by omega)]
    simp only [List.map_cons, List.sum_cons]
    have := ih (a + 1)
    have harg : (a + 1) + (m : Int) = a + ((m : Nat) + 1 : Nat) := by push_cast; ring
    rw [harg] at this
    rw [this]
    ring

/-! ## C5 — mass conservation of the redistribution step -/

/-- C5: the probability masses `P(t) - P(t+1)` for the target states
`t ∈ (s+1 .. max_state]`, with the convention `P(max_state+1) = 0`, together
with the residual mass `1 - P(s+1)` sum to exactly `1`, so the
post-transition building counts sum to the pre-transition count `b`. -/
theorem C5_mass_conservation (P : Int → Rat) (max_state s : Int) (b : Rat)
    (h : s ≤ max_state) :
    remain_mass P max_state s
      + ((target_states s max_state).map
          (fun t => transition_mass P max_state t)).sum = 1
    ∧ (post_transition_counts b P max_state s).sum = b := by
  have htel :
      ((target_states s max_state).map
        (fun t => transition_mass P max_state t)).sum
      = cumulative_prob P max_state (s + 1) := by
    unfold target_states transition_mass
    have hn : max_state + 1 = (s + 1) + ((max_state - s).toNat : Int) := by
      omega
    rw [hn, sum_telescope_intRange (cumulative_prob P max_state)
      (max_state - s).toNat (s + 1), ← hn]
    have : cumulative_prob P max_state (max_state + 1) = 0 := by
      unfold cumulative_prob
      simp
    rw [this, sub_zero]
  have h1 : remain_mass P max_state s
      + ((target_states s max_state).map
          (fun t => transition_mass P max_state t)).sum = 1 := by
    rw [htel]
    unfold remain_mass
    ring
  refine ⟨h1, ?_⟩
  unfold post_transition_counts
  rw [List.sum_cons]
  have hmul : ((target_states s max_state).map
      (fun t => b * transition_mass P max_state t)).sum
      = b * ((target_states s max_state).map
          (fun t => transition_mass P max_state t)).sum := by
    induction target_states s max_state with
    | nil => simp
    | cons t ts ih => simp only [List.map_cons, List.sum_cons, ih]; ring
  rw [hmul, ← mul_add, h1, mul_one]

/-- Witness for C5: a concrete redistribution step with `max_state = 2`,
`s = 0`, `b = 5`. -/
theorem C5_mass_conservation_witness :
    ((0 : Int) ≤ 2)
    ∧ (post_transition_counts 5 (fun t => 1 / ((2 : Rat) ^ t.toNat)) 2 0).sum
      = 5 :=
  ⟨by decide,
    (C5_mass_conservation (fun t => 1 / ((2 : Rat) ^ t.toNat)) 2 0 5
      (by decide)).2⟩

/-! ## C10 — weighted damage never divides by zero -/

lemma mapM_some_length {α β : Type} (f : α → Option β) :
    ∀ (l : List α) (l' : List β), l.mapM f = some l' → l'.length = l.length := by
  intro l
  induction l with
  | nil => intro l' h; simp only [List.mapM_nil, pure, Option.some_inj] at h; simp [← h]
  | cons a as ih =>
    intro l' h
    rw [List.mapM_cons] at h
    cases hf : f a with
    | none => rw [hf] at h; simp at h
    | some b =>
      rw [hf] at h
      cases hrest : as.mapM f with
      | none => rw [hrest] at h; simp at h
      | some bs =>
        rw [hrest] at h
        simp only [Option.bind_eq_bind, Option.some_bind, pure,
          Option.some_inj] at h
        rw [← h]
        simp [ih bs hrest]

/-- C10: `compute_weighted_damage` never divides by zero — with all damage
labels well-formed and the two parallel columns of equal length, it returns
`0` whenever the building counts sum to `0` (including the empty case), and
the building-count-weighted mean `sum(buildings*damage)/sum(buildings)`
otherwise. -/
theorem C10_weighted_damage_no_div0 (buildings : List Rat)
    (damage : List String) (dmg : List Int)
    (hparse : damage.mapM dx_to_int = some dmg)
    (hlen : buildings.length = damage.length) :
    (buildings.sum = 0 → compute_weighted_damage buildings damage = some 0)
    ∧ (buildings.sum ≠ 0 → compute_weighted_damage buildings damage
        = some ((List.zipWith (fun b z => b * (z : Rat)) buildings dmg).sum
            / buildings.sum)) := by
  have hdlen : dmg.length = damage.length := mapM_some_length _ _ _ hparse
  unfold compute_weighted_damage
  rw [hparse]
  simp only [hlen, hdlen, ne_eq, not_true_eq_false, if_false, ite_not]
  constructor
  · intro h0
    simp [h0]
  · intro h0
    simp [h0]

/-- Witness for C10: two taxonomic rows with counts `[2, 1]` in states
`D1`, `D3` give weighted damage `(2*1 + 1*3)/3`. -/
theorem C10_weighted_damage_no_div0_witness :
    (["D1", "D3"].mapM dx_to_int = some [1, 3])
    ∧ ([(2 : Rat), 1].length = ["D1", "D3"].length)
    ∧ ([(2 : Rat), 1].sum ≠ 0)
    ∧ compute_weighted_damage [(2 : Rat), 1] ["D1", "D3"]
      = some ((List.zipWith (fun b z => b * (z : Rat)) [(2 : Rat), 1]
          [1, 3]).sum / [(2 : Rat), 1].sum) :=
  ⟨by decide, by decide, by norm_num [List.sum_cons],
    (C10_weighted_damage_no_div0 [(2 : Rat), 1] ["D1", "D3"] [1, 3]
      (by decide) (by decide)).2 (by norm_num [List.sum_cons])⟩

/-! ## C2 — the `from_state < to_state` invariant fails on the code -/

/-- Counterexample for C2: building a provider from the baseline-only
definition of `test_basics.test_fragility_data_without_sublevel`
(keys `D1_mean`, `D2_mean` for one taxonomy) yields a collection containing
a `DamageState` with `from_state = 1 = to_state`: the completion loop also
visits pairs `(from, to)` with `to ≤ from` and fills `(1,1)` from `(0,1)`.
So not every `DamageState` identifies a transition with
`from_state < to_state`. -/
theorem C2_counterexample :
    to_fragility_provider
      ⟨"logncdf", "SARA_v1.0",
        [⟨"URM1", "pga", "g",
          [("D1_mean", 1), ("D1_stddev", 2),
           ("D2_mean", 3), ("D2_stddev", 4)]⟩]⟩
    = .ok ⟨[("URM1",
        [⟨"URM1", 0, 1, "PGA", "g", 0⟩, ⟨"URM1", 0, 2, "PGA", "g", 1⟩,
         ⟨"URM1", 1, 1, "PGA", "g", 0⟩, ⟨"URM1", 1, 2, "PGA", "g", 1⟩])],
        "SARA_v1.0"⟩
    ∧ ((⟨"URM1", 1, 1, "PGA", "g", 0⟩ : DamageState Nat).from_state
        < (⟨"URM1", 1, 1, "PGA", "g", 0⟩ : DamageState Nat).to_state → False) := by
  exact ⟨rfl, by decide⟩

/-! ## C3 — transition-name parsing of `D_i_j` keys with `i = j` -/

/-- Counterexample for C3: the key `D_2_2_mean` is of the accepted
`D_{i}_{j}_mean` form with `i = j = 2`, but since both regexes read the
same digit the parser resets `from_state` to `0`: the produced damage state
is `(0, 2)`, not `(2, 2)` — so it is not the case that every
`D_{i}_{j}_mean` key yields a state with `from_state = i`. -/
theorem C3_counterexample :
    processDataset
      ⟨"T", "pga", "g", [("D_2_2_mean", 1), ("D_2_2_stddev", 2)]⟩
      FactoryState.init
      = .ok ([⟨"T", 0, 2, "PGA", "g", 0⟩], ⟨[⟨1, 2, 0⟩], 1⟩)
    ∧ ((0 : Int) = 2 → False) := by
  exact ⟨rfl, by decide⟩

/-! ## C8 — malformed fragility definitions fail at load time -/

lemma processKey_error_of_parse {d : Dataset} {key : String} {st : FactoryState}
    {e : String} (h : parseTransition key = .error e) :
    processKey d key st = .error e := by
  unfold processKey
  rw [h]

lemma processKeys_error (d : Dataset) :
    ∀ (ks : List String) (st : FactoryState) (key e : String),
      key ∈ ks → parseTransition key = .error e →
      ∃ e', processKeys d ks st = .error e' := by
  intro ks
  induction ks with
  | nil => intro st key e h; cases h
  | cons k ks' ih =>
    intro st key e hmem hparse
    rcases List.mem_cons.mp hmem with rfl | hmem'
    · exact ⟨e, by unfold processKeys; rw [processKey_error_of_parse hparse]⟩
    · cases hk : processKey d k st with
      | error e'' => exact ⟨e'', by unfold processKeys; rw [hk]⟩
      | ok r =>
        obtain ⟨ds1, st1⟩ := r
        obtain ⟨e', he'⟩ := ih st1 key e hmem' hparse
        exact ⟨e', by unfold processKeys; rw [hk]; dsimp only; rw [he']⟩

lemma processDatasets_error :
    ∀ (l : List Dataset) (m : List (String × List (DamageState Nat)))
      (st : FactoryState) (d : Dataset) (key e : String),
      d ∈ l → key ∈ meanKeys d.params → parseTransition key = .error e →
      ∃ e', processDatasets l m st = .error e' := by
  intro l
  induction l with
  | nil => intro m st d key e h; cases h
  | cons d' rest ih =>
    intro m st d key e hmem hkey hparse
    rcases List.mem_cons.mp hmem with rfl | hmem'
    · obtain ⟨e', he'⟩ := processKeys_error d (meanKeys d.params) st key e hkey hparse
      refine ⟨e', ?_⟩
      unfold processDatasets processDataset
      rw [he']
    · cases hd : processDataset d' st with
      | error e'' => exact ⟨e'', by unfold processDatasets; rw [hd]⟩
      | ok r =>
        obtain ⟨dss1, st1⟩ := r
        obtain ⟨e', he'⟩ := ih (insertTax m d'.taxonomy dss1) st1 d key e hmem' hkey hparse
        exact ⟨e', by unfold processDatasets; rw [hd]; exact he'⟩

/-- C8: a fragility definition containing a parameter key that starts with
`D` and ends with `_mean` but fails the transition-name regexes makes
`to_fragility_provider` raise during loading: no provider is ever
returned. -/
theorem C8_malformed_fails_at_load (frag : Fragility) (d : Dataset)
    (key e : String) (hd : d ∈ frag.data) (hkey : key ∈ meanKeys d.params)
    (hparse : parseTransition key = .error e) :
    ∃ e', to_fragility_provider frag = .error e' := by
  unfold to_fragility_provider
  by_cases hs : frag.shape = "logncdf" ∨ frag.shape = "normcdf"
  · rw [if_pos hs]
    obtain ⟨e', he'⟩ :=
      processDatasets_error frag.data [] FactoryState.init d key e hd hkey hparse
    unfold to_fragility_provider_with_specified_fragility_function
    rw [he']
    exact ⟨e', rfl⟩
  · rw [if_neg hs]
    exact ⟨"KeyError", rfl⟩

/-- Witness for C8: the key `D01_mean` (the `D01` form the source comment
claims to handle) starts with `D`, ends with `_mean`, and fails the
`from`-regex, so the load errors. -/
theorem C8_malformed_fails_at_load_witness :
    ((⟨"T", "pga", "g", [("D01_mean", 1), ("D01_stddev", 2)]⟩ : Dataset)
        ∈ [(⟨"T", "pga", "g", [("D01_mean", 1), ("D01_stddev", 2)]⟩ : Dataset)])
    ∧ ("D01_mean" ∈ meanKeys [("D01_mean", 1), ("D01_stddev", 2)])
    ∧ parseTransition "D01_mean" = .error "AttributeError"
    ∧ ∃ e', to_fragility_provider
        ⟨"logncdf", "S",
          [⟨"T", "pga", "g", [("D01_mean", 1), ("D01_stddev", 2)]⟩]⟩
        = .error e' :=
  ⟨by decide, by decide, rfl,
    C8_malformed_fails_at_load
      ⟨"logncdf", "S", [⟨"T", "pga", "g", [("D01_mean", 1), ("D01_stddev", 2)]⟩]⟩
      ⟨"T", "pga", "g", [("D01_mean", 1), ("D01_stddev", 2)]⟩
      "D01_mean" "AttributeError" (by decide) (by decide) rfl⟩

/-! ## C2 (amended) — what does hold: states are non-negative integers -/

lemma parseTransition_nonneg {key : String} {fs ts : Int}
    (h : parseTransition key = .ok (fs, ts)) : 0 ≤ fs ∧ 0 ≤ ts := by
  unfold parseTransition at h
  cases h1 : searchToState key.data with
  | none => rw [h1] at h; exact absurd h (by simp)
  | some t =>
    cases h2 : searchFromState key.data with
    | none => rw [h1, h2] at h; exact absurd h (by simp)
    | some f =>
      rw [h1, h2] at h
      simp only [Except.ok.injEq, Prod.mk.injEq] at h
      obtain ⟨hfs, hts⟩ := h
      constructor
      · rw [← hfs]; split_ifs <;> omega
      · omega

lemma processKey_nonneg {d : Dataset} {key : String} {st : FactoryState}
    {ds : DamageState Nat} {st' : FactoryState}
    (h : processKey d key st = .ok (ds, st')) :
    0 ≤ ds.from_state ∧ 0 ≤ ds.to_state := by
  unfold processKey at h
  cases hp : parseTransition key with
  | error e => rw [hp] at h; exact absurd h (by simp)
  | ok pr =>
    obtain ⟨fs, ts⟩ := pr
    rw [hp] at h
    cases hm : lookupKey d.params key with
    | none => rw [hm] at h; exact absurd h (by simp)
    | some mean =>
      cases hs : lookupKey d.params (replaceMeanStddev key) with
      | none => rw [hm, hs] at h; exact absurd h (by simp)
      | some stddev =>
        rw [hm, hs] at h
        simp only [Except.ok.injEq, Prod.mk.injEq] at h
        have hds := h.1
        have := parseTransition_nonneg hp
        rw [← hds]
        exact this

lemma processKeys_nonneg {d : Dataset} :
    ∀ (ks : List String) (st : FactoryState) (dss : List (DamageState Nat))
      (st' : FactoryState),
      processKeys d ks st = .ok (dss, st') →
      ∀ ds ∈ dss, 0 ≤ ds.from_state ∧ 0 ≤ ds.to_state := by
  intro ks
  induction ks with
  | nil =>
    intro st dss st' h ds hds
    unfold processKeys at h
    simp only [Except.ok.injEq, Prod.mk.injEq] at h
    rw [← h.1] at hds
    cases hds
  | cons k ks' ih =>
    intro st dss st' h ds hds
    unfold processKeys at h
    cases hk : processKey d k st with
    | error e => rw [hk] at h; exact absurd h (by simp)
    | ok r =>
      obtain ⟨ds1, st1⟩ := r
      rw [hk] at h
      dsimp only at h
      cases hr : processKeys d ks' st1 with
      | error e => rw [hr] at h; exact absurd h (by simp)
      | ok r2 =>
        obtain ⟨rest, st2⟩ := r2
        rw [hr] at h
        simp only [Except.ok.injEq, Prod.mk.injEq] at h
        rw [← h.1] at hds
        rcases List.mem_cons.mp hds with rfl | hds'
        · exact processKey_nonneg hk
        · exact ih st1 rest st2 hr ds hds'

/-- The invariant tracked through the taxonomy dict. -/
def AllNonneg (m : List (String × List (DamageState Nat))) : Prop :=
  ∀ p ∈ m, ∀ ds ∈ p.2, 0 ≤ ds.from_state ∧ 0 ≤ ds.to_state

lemma insertTax_nonneg {m : List (String × List (DamageState Nat))}
    {tax : String} {dss : List (DamageState Nat)}
    (hm : AllNonneg m)
    (hdss : ∀ ds ∈ dss, 0 ≤ ds.from_state ∧ 0 ≤ ds.to_state) :
    AllNonneg (insertTax m tax dss) := by
  unfold insertTax
  cases dss with
  | nil => exact hm
  | cons d0 rest =>
    split_ifs with h
    · intro p hp ds hds
      obtain ⟨q, hq, rfl⟩ := List.mem_map.mp hp
      by_cases hq1 : q.1 = tax
      · rw [if_pos hq1] at hds
        simp only at hds
        rcases List.mem_append.mp hds with hds' | hds'
        · exact hm q hq ds hds'
        · exact hdss ds hds'
      · rw [if_neg hq1] at hds
        exact hm q hq ds hds
    · intro p hp ds hds
      rcases List.mem_append.mp hp with hp' | hp'
      · exact hm p hp' ds hds
      · simp only [List.mem_singleton] at hp'
        rw [hp'] at hds
        exact hdss ds hds

lemma processDatasets_nonneg :
    ∀ (l : List Dataset) (m : List (String × List (DamageState Nat)))
      (st : FactoryState) (m' : List (String × List (DamageState Nat)))
      (st' : FactoryState),
      processDatasets l m st = .ok (m', st') → AllNonneg m → AllNonneg m' := by
  intro l
  induction l with
  | nil =>
    intro m st m' st' h hm
    unfold processDatasets at h
    simp only [Except.ok.injEq, Prod.mk.injEq] at h
    rw [← h.1]
    exact hm
  | cons d rest ih =>
    intro m st m' st' h hm
    unfold processDatasets at h
    cases hd : processDataset d st with
    | error e => rw [hd] at h; exact absurd h (by simp)
    | ok r =>
      obtain ⟨dss1, st1⟩ := r
      rw [hd] at h
      dsimp only at h
      exact ih _ st1 m' st' h
        (insertTax_nonneg hm (processKeys_nonneg (meanKeys d.params) st dss1 st1 hd))

lemma foldl_preserve {α β : Type} (Q : β → Prop) (g : β → α → β)
    (hstep : ∀ b a, Q b → Q (g b a)) :
    ∀ (l : List α) (b : β), Q b → Q (l.foldl g b) := by
  intro l
  induction l with
  | nil => intro b hb; exact hb
  | cons a l' ih => intro b hb; exact ih (g b a) (hstep b a hb)

lemma completionStep_nonneg {F : Type} (fs ts : Int)
    {cur : List (DamageState F)}
    (h : ∀ ds ∈ cur, 0 ≤ ds.from_state ∧ 0 ≤ ds.to_state) :
    ∀ ds ∈ completionStep fs ts cur, 0 ≤ ds.from_state ∧ 0 ≤ ds.to_state := by
  unfold completionStep
  cases h1 : cur.filter (fun ds => ds.from_state = fs ∧ ds.to_state = ts) with
  | cons x xs => exact h
  | nil =>
    cases h2 : cur.filter (fun ds => ds.from_state = fs - 1 ∧ ds.to_state = ts) with
    | nil => exact h
    | cons ds_lower tl =>
      have hmem : ds_lower ∈ cur := by
        have : ds_lower ∈ cur.filter
            (fun ds => ds.from_state = fs - 1 ∧ ds.to_state = ts) := by
          rw [h2]; exact List.mem_cons_self _ _
        exact List.mem_of_mem_filter this
      intro ds hds
      rcases List.mem_append.mp hds with hds' | hds'
      · exact h ds hds'
      · simp only [List.mem_singleton] at hds'
        have hl := h ds_lower hmem
        rw [hds']
        exact ⟨by simpa [mkDamageState] using by omega, by
          simpa [mkDamageState] using hl.2⟩

lemma add_missing_nonneg {F : Type} {l : List (DamageState F)}
    (h : ∀ ds ∈ l, 0 ≤ ds.from_state ∧ 0 ≤ ds.to_state) :
    ∀ ds ∈ add_damage_states_if_missing_to_dataset_list l,
      0 ≤ ds.from_state ∧ 0 ≤ ds.to_state := by
  unfold add_damage_states_if_missing_to_dataset_list
  cases l with
  | nil => intro ds hds; cases hds
  | cons d rest =>
    exact foldl_preserve
      (fun cur : List (DamageState F) =>
        ∀ ds ∈ cur, 0 ≤ ds.from_state ∧ 0 ≤ ds.to_state)
      _
      (fun cur fs hcur =>
        foldl_preserve
          (fun cur2 : List (DamageState F) =>
            ∀ ds ∈ cur2, 0 ≤ ds.from_state ∧ 0 ≤ ds.to_state)
          _
          (fun cur2 ts hcur2 => completionStep_nonneg fs ts hcur2)
          _ cur hcur)
      _ _ h

/-- C2 amended: in every provider built by `to_fragility_provider`, every
damage state carries non-negative integer `from_state` and `to_state`; the
originally claimed strict inequality `from_state < to_state` is refuted by
`C2_counterexample` (the completion loop synthesizes e.g. a `(1,1)`
state). -/
theorem C2_amended_states_nonneg (frag : Fragility) (prov : FragilityProvider)
    (h : to_fragility_provider frag = .ok prov) :
    ∀ p ∈ prov.damage_states_by_taxonomy, ∀ ds ∈ p.2,
      0 ≤ ds.from_state ∧ 0 ≤ ds.to_state := by
  unfold to_fragility_provider at h
  by_cases hs : frag.shape = "logncdf" ∨ frag.shape = "normcdf"
  · rw [if_pos hs] at h
    cases hp : to_fragility_provider_with_specified_fragility_function frag
        FactoryState.init with
    | error e => rw [hp] at h; exact absurd h (by simp)
    | ok r =>
      obtain ⟨prov1, st1⟩ := r
      rw [hp] at h
      dsimp only at h
      simp only [Except.ok.injEq] at h
      unfold to_fragility_provider_with_specified_fragility_function at hp
      cases hpd : processDatasets frag.data [] FactoryState.init with
      | error e => rw [hpd] at hp; exact absurd hp (by simp)
      | ok r2 =>
        obtain ⟨m, st2⟩ := r2
        rw [hpd] at hp
        simp only [Except.ok.injEq, Prod.mk.injEq] at hp
        have hnn : AllNonneg m :=
          processDatasets_nonneg frag.data [] FactoryState.init m st2 hpd
            (by intro p hp'; cases hp')
        rw [← h, ← hp.1]
        intro p hpmem ds hds
        simp only at hpmem
        unfold add_damage_states_if_missing at hpmem
        obtain ⟨q, hq, rfl⟩ := List.mem_map.mp hpmem
        exact add_missing_nonneg (hnn q hq) ds hds
  · rw [if_neg hs] at h
    exact absurd h (by simp)

/-- Witness for C2 amended: the synthesized `(1,1)` damage state of the
baseline build indeed has non-negative states. -/
theorem C2_amended_states_nonneg_witness :
    to_fragility_provider
      ⟨"logncdf", "SARA_v1.0",
        [⟨"URM1", "pga", "g",
          [("D1_mean", 1), ("D1_stddev", 2),
           ("D2_mean", 3), ("D2_stddev", 4)]⟩]⟩
    = .ok ⟨[("URM1",
        [⟨"URM1", 0, 1, "PGA", "g", 0⟩, ⟨"URM1", 0, 2, "PGA", "g", 1⟩,
         ⟨"URM1", 1, 1, "PGA", "g", 0⟩, ⟨"URM1", 1, 2, "PGA", "g", 1⟩])],
        "SARA_v1.0"⟩
    ∧ (0 ≤ (1 : Int) ∧ 0 ≤ (1 : Int)) :=
  ⟨rfl,
    C2_amended_states_nonneg
      ⟨"logncdf", "SARA_v1.0",
        [⟨"URM1", "pga", "g",
          [("D1_mean", 1), ("D1_stddev", 2),
           ("D2_mean", 3), ("D2_stddev", 4)]⟩]⟩
      ⟨[("URM1",
        [⟨"URM1", 0, 1, "PGA", "g", 0⟩, ⟨"URM1", 0, 2, "PGA", "g", 1⟩,
         ⟨"URM1", 1, 1, "PGA", "g", 0⟩, ⟨"URM1", 1, 2, "PGA", "g", 1⟩])],
        "SARA_v1.0"⟩
      rfl
      ("URM1",
        [⟨"URM1", 0, 1, "PGA", "g", 0⟩, ⟨"URM1", 0, 2, "PGA", "g", 1⟩,
         ⟨"URM1", 1, 1, "PGA", "g", 0⟩, ⟨"URM1", 1, 2, "PGA", "g", 1⟩])
      (by decide)
      ⟨"URM1", 1, 1, "PGA", "g", 0⟩
      (by decide)⟩

/-! ## C3 (amended) -- transition-name parsing lemmas -/


lemma parseTransition_baseline (c : Char) (hc : c.isDigit = true) :
    parseTransition ⟨['D', c, '_', 'm', 'e', 'a', 'n']⟩
      = .ok (0, (digitVal c : Int)) := by
  have hto : searchToState ['D', c, '_', 'm', 'e', 'a', 'n']
      = some (digitVal c) := by
    have hrev : (['D', c, '_', 'm', 'e', 'a', 'n'] : List Char).reverse
        = ['n', 'a', 'e', 'm', '_', c, 'D'] := by simp
    unfold searchToState
    rw [hrev]
    simp [hc]
  have hfrom : searchFromState ['D', c, '_', 'm', 'e', 'a', 'n']
      = some (digitVal c) := by
    have hne : c ≠ '_' := by
      intro h
      rw [h] at hc
      exact absurd hc (by decide)
    rw [searchFromState.eq_def]
    split
    · rename_i heq
      injection heq with h1 h2
      injection h2 with h3 h4
      exact absurd h3 hne
    · rename_i heq
      injection heq with h1 h2
      injection h2 with h3 h4
      exact absurd h3 hne
    · rename_i d tail heq
      injection heq with h1 h2
      injection h2 with h3 h4
      rw [← h3, hc]
      rfl
    · rename_i hn1 hn2 hn3
      exact absurd rfl (hn3 c ['m', 'e', 'a', 'n'])
  unfold parseTransition
  simp only [String.data]
  rw [hto, hfrom]
  simp



lemma parseTransition_sublevel (c₁ c₂ : Char) (h1 : c₁.isDigit = true)
    (h2 : c₂.isDigit = true) (hne : digitVal c₁ ≠ digitVal c₂) :
    parseTransition ⟨['D', '_', c₁, '_', c₂, '_', 'm', 'e', 'a', 'n']⟩
      = .ok ((digitVal c₁ : Int), (digitVal c₂ : Int)) := by
  have hto : searchToState ['D', '_', c₁, '_', c₂, '_', 'm', 'e', 'a', 'n']
      = some (digitVal c₂) := by
    have hrev : (['D', '_', c₁, '_', c₂, '_', 'm', 'e', 'a', 'n'] : List Char).reverse
        = ['n', 'a', 'e', 'm', '_', c₂, '_', c₁, '_', 'D'] := by simp
    unfold searchToState
    rw [hrev]
    simp [h2]
  have hfrom : searchFromState ['D', '_', c₁, '_', c₂, '_', 'm', 'e', 'a', 'n']
      = some (digitVal c₁) := by
    unfold searchFromState
    simp [h1]
  unfold parseTransition
  simp only [String.data]
  rw [hto, hfrom]
  have hcast : ¬ ((digitVal c₂ : Int) = (digitVal c₁ : Int)) := by
    exact_mod_cast hne.symm
  simp [hcast]



lemma processKey_fields {d : Dataset} {key : String} {st : FactoryState}
    {ds : DamageState Nat} {st' : FactoryState}
    (h : processKey d key st = .ok (ds, st')) :
    ∃ mean stddev : Rat,
      lookupKey d.params key = some mean ∧
      lookupKey d.params (replaceMeanStddev key) = some stddev ∧
      ds.taxonomy = d.taxonomy ∧
      ds.intensity_field = pyUpper d.imt ∧
      ds.intensity_unit = d.imu ∧
      parseTransition key = .ok (ds.from_state, ds.to_state) ∧
      ds.fragility_function = (factoryCall st mean stddev).1 ∧
      st' = (factoryCall st mean stddev).2 := by
  unfold processKey at h
  cases hp : parseTransition key with
  | error e => rw [hp] at h; exact absurd h (by simp)
  | ok pr =>
    obtain ⟨fs, ts⟩ := pr
    rw [hp] at h
    cases hm : lookupKey d.params key with
    | none => rw [hm] at h; exact absurd h (by simp)
    | some mean =>
      cases hsd : lookupKey d.params (replaceMeanStddev key) with
      | none => rw [hm, hsd] at h; exact absurd h (by simp)
      | some stddev =>
        rw [hm, hsd] at h
        simp only [Except.ok.injEq, Prod.mk.injEq] at h
        obtain ⟨hds, hst⟩ := h
        refine ⟨mean, stddev, rfl, rfl, ?_, ?_, ?_, ?_, ?_, hst.symm⟩
        · rw [← hds]; rfl
        · rw [← hds]; rfl
        · rw [← hds]; rfl
        · rw [← hds]; rfl
        · rw [← hds]; rfl

lemma processKeys_spec (d : Dataset) :
    ∀ (ks : List String) (st : FactoryState) (dss : List (DamageState Nat))
      (st' : FactoryState),
      processKeys d ks st = .ok (dss, st') →
      dss.length = ks.length ∧
      (∃ ext, st'.cache = st.cache ++ ext) ∧
      ∀ i (hi : i < ks.length), ∃ (hd : i < dss.length) (mean stddev : Rat),
        lookupKey d.params (ks.get ⟨i, hi⟩) = some mean ∧
        lookupKey d.params (replaceMeanStddev (ks.get ⟨i, hi⟩)) = some stddev ∧
        (dss.get ⟨i, hd⟩).taxonomy = d.taxonomy ∧
        (dss.get ⟨i, hd⟩).intensity_field = pyUpper d.imt ∧
        (dss.get ⟨i, hd⟩).intensity_unit = d.imu ∧
        parseTransition (ks.get ⟨i, hi⟩)
          = .ok ((dss.get ⟨i, hd⟩).from_state, (dss.get ⟨i, hd⟩).to_state) ∧
        factoryCall st' mean stddev
          = ((dss.get ⟨i, hd⟩).fragility_function, st') := by
  intro ks
  induction ks with
  | nil =>
    intro st dss st' h
    unfold processKeys at h
    simp only [Except.ok.injEq, Prod.mk.injEq] at h
    refine ⟨by simp [← h.1], ⟨[], by rw [← h.2]; simp⟩, ?_⟩
    intro i hi
    exact absurd hi (by simp)
  | cons k ks' ih =>
    intro st dss st' h
    unfold processKeys at h
    cases hk : processKey d k st with
    | error e => rw [hk] at h; exact absurd h (by simp)
    | ok r =>
      obtain ⟨ds1, st1⟩ := r
      rw [hk] at h
      dsimp only at h
      cases hr : processKeys d ks' st1 with
      | error e => rw [hr] at h; exact absurd h (by simp)
      | ok r2 =>
        obtain ⟨rest, st2⟩ := r2
        rw [hr] at h
        simp only [Except.ok.injEq, Prod.mk.injEq] at h
        obtain ⟨hdss, hst'⟩ := h
        obtain ⟨hlen, ⟨ext, hext⟩, hspec⟩ := ih st1 rest st2 hr
        obtain ⟨mean, stddev, hm, hsd, htax, hfld, hunit, hparse, hfid, hst1⟩ :=
          processKey_fields hk
        subst hst'
        subst hdss
        refine ⟨by simp [hlen], ?_, ?_⟩
        · obtain ⟨ext0, hext0⟩ := factoryCall_cache_extend st mean stddev
          exact ⟨ext0 ++ ext, by rw [hext, hst1, hext0, List.append_assoc]⟩
        · intro i hi
          cases i with
          | zero =>
            refine ⟨by simp, mean, stddev, hm, hsd, htax, hfld, hunit, hparse, ?_⟩
            have hfind : st1.cache.find?
                (fun e => e.mean = mean ∧ e.stddev = stddev)
                = some ⟨mean, stddev, ds1.fragility_function⟩ := by
              rw [hst1, hfid]
              exact factoryCall_snd_find st mean stddev
            have hfind2 : st2.cache.find?
                (fun e => e.mean = mean ∧ e.stddev = stddev)
                = some ⟨mean, stddev, ds1.fragility_function⟩ := by
              rw [hext]
              exact find?_append_left hfind
            exact factoryCall_of_find hfind2
          | succ j =>
            have hj : j < ks'.length := by simpa using hi
            obtain ⟨hd, mean', stddev', hm', hsd', htax', hfld', hunit',
              hparse', hfac'⟩ := hspec j hj
            exact ⟨by simpa using hd, mean', stddev', hm', hsd', htax', hfld',
              hunit', hparse', hfac'⟩

/-- C3 amended: for every taxonomy record, the parsing loop yields exactly
one `DamageState` per `D…_mean` parameter key (positionally, in key order),
carrying the record's taxonomy, upper-cased intensity field and unit, whose
fragility function is the very object the declared factory returns for the
key's `(mean, stddev)` (a cache hit afterwards, identical object); a
single-digit `D{n}_mean` key yields `from_state = 0`, `to_state = n`, and a
single-digit `D_{i}_{j}_mean` key with `i ≠ j` yields `from_state = i`,
`to_state = j`.  The original claim's "for all non-negative integers
`n, i, j`" is refuted by `C3_counterexample`: for `i = j` the parser resets
`from_state` to `0` (and multi-digit states fail the regexes, cf. C8). -/
theorem C3_amended_transition_parsing (d : Dataset) (st : FactoryState)
    (dss : List (DamageState Nat)) (st' : FactoryState)
    (h : processDataset d st = .ok (dss, st')) :
    dss.length = (meanKeys d.params).length
    ∧ ∀ i (hi : i < (meanKeys d.params).length),
      ∃ (hd : i < dss.length) (mean stddev : Rat),
        lookupKey d.params ((meanKeys d.params).get ⟨i, hi⟩) = some mean
        ∧ lookupKey d.params
            (replaceMeanStddev ((meanKeys d.params).get ⟨i, hi⟩))
          = some stddev
        ∧ (dss.get ⟨i, hd⟩).taxonomy = d.taxonomy
        ∧ (dss.get ⟨i, hd⟩).intensity_field = pyUpper d.imt
        ∧ (dss.get ⟨i, hd⟩).intensity_unit = d.imu
        ∧ factoryCall st' mean stddev
            = ((dss.get ⟨i, hd⟩).fragility_function, st')
        ∧ (∀ c : Char, c.isDigit = true →
            ((meanKeys d.params).get ⟨i, hi⟩).data
              = ['D', c, '_', 'm', 'e', 'a', 'n'] →
            (dss.get ⟨i, hd⟩).from_state = 0
            ∧ (dss.get ⟨i, hd⟩).to_state = (digitVal c : Int))
        ∧ (∀ c₁ c₂ : Char, c₁.isDigit = true → c₂.isDigit = true →
            digitVal c₁ ≠ digitVal c₂ →
            ((meanKeys d.params).get ⟨i, hi⟩).data
              = ['D', '_', c₁, '_', c₂, '_', 'm', 'e', 'a', 'n'] →
            (dss.get ⟨i, hd⟩).from_state = (digitVal c₁ : Int)
            ∧ (dss.get ⟨i, hd⟩).to_state = (digitVal c₂ : Int)) := by
  unfold processDataset at h
  obtain ⟨hlen, _, hspec⟩ := processKeys_spec d (meanKeys d.params) st dss st' h
  refine ⟨hlen, ?_⟩
  intro i hi
  obtain ⟨hd, mean, stddev, hm, hsd, htax, hfld, hunit, hparse, hfac⟩ :=
    hspec i hi
  refine ⟨hd, mean, stddev, hm, hsd, htax, hfld, hunit, hfac, ?_, ?_⟩
  · intro c hc hdata
    have hkey : (meanKeys d.params).get ⟨i, hi⟩
        = ⟨['D', c, '_', 'm', 'e', 'a', 'n']⟩ := by
      cases hk : (meanKeys d.params).get ⟨i, hi⟩ with
      | mk data => rw [hk] at hdata; exact congrArg String.mk hdata
    rw [hkey] at hparse
    rw [parseTransition_baseline c hc] at hparse
    simp only [Except.ok.injEq, Prod.mk.injEq] at hparse
    exact ⟨hparse.1.symm, hparse.2.symm⟩
  · intro c₁ c₂ hc1 hc2 hne hdata
    have hkey : (meanKeys d.params).get ⟨i, hi⟩
        = ⟨['D', '_', c₁, '_', c₂, '_', 'm', 'e', 'a', 'n']⟩ := by
      cases hk : (meanKeys d.params).get ⟨i, hi⟩ with
      | mk data => rw [hk] at hdata; exact congrArg String.mk hdata
    rw [hkey] at hparse
    rw [parseTransition_sublevel c₁ c₂ hc1 hc2 hne] at hparse
    simp only [Except.ok.injEq, Prod.mk.injEq] at hparse
    exact ⟨hparse.1.symm, hparse.2.symm⟩

/-- Witness for C3 amended: the two-key baseline record of the tests —
parsing succeeds, produces one state per key, and the first key `D1_mean`
yields the `(0, 1)` state. -/
theorem C3_amended_transition_parsing_witness :
    processDataset
      ⟨"URM1", "pga", "g",
        [("D1_mean", 1), ("D1_stddev", 2), ("D2_mean", 3), ("D2_stddev", 4)]⟩
      FactoryState.init
    = .ok ([⟨"URM1", 0, 1, "PGA", "g", 0⟩, ⟨"URM1", 0, 2, "PGA", "g", 1⟩],
        ⟨[⟨1, 2, 0⟩, ⟨3, 4, 1⟩], 2⟩)
    ∧ [⟨"URM1", 0, 1, "PGA", "g", 0⟩,
        (⟨"URM1", 0, 2, "PGA", "g", 1⟩ : DamageState Nat)].length
      = (meanKeys [("D1_mean", (1 : Rat)), ("D1_stddev", 2), ("D2_mean", 3),
          ("D2_stddev", 4)]).length := by
  refine ⟨rfl, ?_⟩
  exact (C3_amended_transition_parsing
    ⟨"URM1", "pga", "g",
      [("D1_mean", 1), ("D1_stddev", 2), ("D2_mean", 3), ("D2_stddev", 4)]⟩
    FactoryState.init
    [⟨"URM1", 0, 1, "PGA", "g", 0⟩, ⟨"URM1", 0, 2, "PGA", "g", 1⟩]
    ⟨[⟨1, 2, 0⟩, ⟨3, 4, 1⟩], 2⟩ rfl).1

/-! ## C1 -- lattice completeness on baseline data -/


lemma range_filter_single :
    ∀ (n j : Nat), j < n →
      (List.range n).filter (fun k => decide (k = j)) = [j] := by
  intro n
  induction n with
  | zero => intro j h; omega
  | succ m ih =>
    intro j h
    rw [List.range_succ, List.filter_append]
    by_cases hj : j = m
    · subst hj
      have h1 : (List.range j).filter (fun k => decide (k = j)) = [] := by
        rw [List.filter_eq_nil_iff]
        intro a ha
        simp only [List.mem_range] at ha
        simp only [decide_eq_true_eq]
        omega
      rw [h1]
      simp
    · have h2 : j < m := by omega
      rw [ih j h2]
      have h3 : ([m] : List Nat).filter (fun k => decide (k = j)) = [] := by
        simp [Ne.symm hj]
      rw [h3, List.append_nil]

lemma mem_tblock {f : Nat → Nat} {fs : Int} {n : Nat} {x : Int × Int × Nat} :
    x ∈ tblock f fs n ↔
      ∃ j : Nat, 1 ≤ j ∧ j ≤ n ∧ x = (fs, (j : Int), f j) := by
  unfold tblock
  simp only [List.mem_map, List.mem_range]
  constructor
  · rintro ⟨k, hk, rfl⟩
    exact ⟨k + 1, by omega, by omega, rfl⟩
  · rintro ⟨j, h1, h2, rfl⟩
    refine ⟨j - 1, by omega, ?_⟩
    have hj : j - 1 + 1 = j := by omega
    rw [hj]

lemma tblock_filter_out {f : Nat → Nat} {fs : Int} {n : Nat} {a ts : Int}
    (h : a ≠ fs ∨ ts < 1 ∨ (n : Int) < ts) :
    (tblock f fs n).filter (fun x => decide (x.1 = a ∧ x.2.1 = ts)) = [] := by
  rw [List.filter_eq_nil_iff]
  intro x hx
  obtain ⟨j, h1, h2, rfl⟩ := mem_tblock.mp hx
  simp only [decide_eq_true_eq, not_and]
  intro hfs hts
  rcases h with h | h | h
  · exact h hfs.symm
  · omega
  · omega

lemma tblock_filter_self {f : Nat → Nat} {fs : Int} {n j : Nat}
    (h1 : 1 ≤ j) (h2 : j ≤ n) :
    (tblock f fs n).filter (fun x => decide (x.1 = fs ∧ x.2.1 = (j : Int)))
      = [(fs, (j : Int), f j)] := by
  unfold tblock
  rw [List.filter_map]
  have hcongr : ((List.range n).filter
      ((fun x : Int × Int × Nat => decide (x.1 = fs ∧ x.2.1 = (j : Int))) ∘
        (fun k : Nat => (fs, ((k + 1 : Nat) : Int), f (k + 1)))))
      = (List.range n).filter (fun k => decide (k = j - 1)) := by
    apply List.filter_congr
    intro k _
    show decide (fs = fs ∧ ((k + 1 : Nat) : Int) = (j : Int))
      = decide (k = j - 1)
    rw [decide_eq_decide]
    constructor
    · rintro ⟨-, h⟩
      omega
    · intro h
      exact ⟨rfl, by omega⟩
  rw [hcongr, range_filter_single n (j - 1) (by omega)]
  simp only [List.map_cons, List.map_nil]
  have hj : j - 1 + 1 = j := by omega
  rw [hj]



lemma mem_textras {f : Nat → Nat} {N : Nat} :
    ∀ {i : Nat} {x : Int × Int × Nat}, x ∈ textras f N i →
      ∃ a j : Nat, 1 ≤ a ∧ a ≤ i ∧ 1 ≤ j ∧ j ≤ N ∧ x = ((a : Int), (j : Int), f j) := by
  intro i
  induction i with
  | zero => intro x hx; cases hx
  | succ m ih =>
    intro x hx
    unfold textras at hx
    rcases List.mem_append.mp hx with hx' | hx'
    · obtain ⟨a, j, h1, h2, h3, h4, rfl⟩ := ih hx'
      exact ⟨a, j, h1, by omega, h3, h4, rfl⟩
    · obtain ⟨j, h1, h2, rfl⟩ := mem_tblock.mp hx'
      exact ⟨m + 1, j, by omega, by omega, h1, h2, rfl⟩

lemma textras_filter_out {f : Nat → Nat} {N i : Nat} {a ts : Int}
    (h : a < 1 ∨ (i : Int) < a) :
    (textras f N i).filter (fun x => decide (x.1 = a ∧ x.2.1 = ts)) = [] := by
  rw [List.filter_eq_nil_iff]
  intro x hx
  obtain ⟨a', j, h1, h2, h3, h4, rfl⟩ := mem_textras hx
  simp only [decide_eq_true_eq, not_and]
  intro hfs
  exfalso
  rcases h with h | h <;> omega

lemma textras_filter_self {f : Nat → Nat} {N : Nat} :
    ∀ {i a j : Nat}, 1 ≤ a → a ≤ i → 1 ≤ j → j ≤ N →
      (textras f N i).filter
        (fun x => decide (x.1 = (a : Int) ∧ x.2.1 = (j : Int)))
      = [((a : Int), (j : Int), f j)] := by
  intro i
  induction i with
  | zero => intro a j ha1 ha2; omega
  | succ m ih =>
    intro a j ha1 ha2 hj1 hj2
    unfold textras
    rw [List.filter_append]
    by_cases ham : a ≤ m
    · rw [ih ha1 ham hj1 hj2]
      have hne : ((a : Int)) ≠ ((m + 1 : Nat) : Int) := by
        push_cast
        omega
      rw [tblock_filter_out (Or.inl hne), List.append_nil]
    · have ha : a = m + 1 := by omega
      subst ha
      rw [textras_filter_out (Or.inr (by push_cast; omega))]
      rw [List.nil_append]
      exact tblock_filter_self hj1 hj2

lemma tblock_succ (f : Nat → Nat) (fs : Int) (t : Nat) :
    tblock f fs (t + 1)
      = tblock f fs t ++ [(fs, ((t + 1 : Nat) : Int), f (t + 1))] := by
  unfold tblock
  rw [List.range_succ, List.map_append]
  rfl

lemma completionStep_map (fs ts : Int) (cur : List (DamageState Nat)) :
    (completionStep fs ts cur).map dsTriple
      = completionStepT fs ts (cur.map dsTriple) := by
  unfold completionStep completionStepT
  have hf1 : (cur.map dsTriple).filter
      (fun x => decide (x.1 = fs ∧ x.2.1 = ts))
      = (cur.filter (fun ds => decide (ds.from_state = fs ∧ ds.to_state = ts))).map
          dsTriple := by
    rw [List.filter_map]
    exact congrArg (List.map dsTriple) (List.filter_congr fun ds _ => rfl)
  have hf2 : (cur.map dsTriple).filter
      (fun x => decide (x.1 = fs - 1 ∧ x.2.1 = ts))
      = (cur.filter
          (fun ds => decide (ds.from_state = fs - 1 ∧ ds.to_state = ts))).map
          dsTriple := by
    rw [List.filter_map]
    exact congrArg (List.map dsTriple) (List.filter_congr fun ds _ => rfl)
  rw [hf1, hf2]
  cases h1 : cur.filter (fun ds => decide (ds.from_state = fs ∧ ds.to_state = ts)) with
  | cons y ys => rfl
  | nil =>
    simp only [List.map_nil]
    cases h2 : cur.filter
        (fun ds => decide (ds.from_state = fs - 1 ∧ ds.to_state = ts)) with
    | nil => rfl
    | cons y ys =>
      simp only [List.map_cons, List.map_append]
      rfl



lemma E_filter_self {f : Nat → Nat} {N i a j : Nat}
    (ha : a ≤ i) (hj1 : 1 ≤ j) (hj2 : j ≤ N) :
    (tblock f 0 N ++ textras f N i).filter
      (fun x => decide (x.1 = (a : Int) ∧ x.2.1 = (j : Int)))
      = [((a : Int), (j : Int), f j)] := by
  rw [List.filter_append]
  by_cases ha0 : a = 0
  · subst ha0
    rw [textras_filter_out (Or.inl (by omega)), List.append_nil]
    have := @tblock_filter_self f (0 : Int) N j hj1 hj2
    have hcast : ((0 : Nat) : Int) = (0 : Int) := Nat.cast_zero
    rw [hcast]
    exact this
  · have ha1 : 1 ≤ a := by omega
    rw [tblock_filter_out (Or.inl (by omega)), List.nil_append]
    exact textras_filter_self ha1 ha hj1 hj2

lemma stepT_fill {f : Nat → Nat} {N i t : Nat} (ht : t < N) :
    completionStepT ((i + 1 : Nat) : Int) ((t + 1 : Nat) : Int)
      (tblock f 0 N ++ textras f N i ++ tblock f ((i + 1 : Nat) : Int) t)
    = tblock f 0 N ++ textras f N i ++ tblock f ((i + 1 : Nat) : Int) (t + 1) := by
  unfold completionStepT
  have hfil1 : (tblock f 0 N ++ textras f N i
        ++ tblock f ((i + 1 : Nat) : Int) t).filter
      (fun x => decide (x.1 = ((i + 1 : Nat) : Int)
        ∧ x.2.1 = ((t + 1 : Nat) : Int))) = [] := by
    rw [List.filter_append, List.filter_append]
    rw [tblock_filter_out (Or.inl (by push_cast; omega))]
    rw [textras_filter_out (Or.inr (by push_cast; omega))]
    rw [tblock_filter_out (Or.inr (Or.inr (by push_cast; omega)))]
    rfl
  rw [hfil1]
  have hpred : (fun x : Int × Int × Nat =>
        decide (x.1 = ((i + 1 : Nat) : Int) - 1
          ∧ x.2.1 = ((t + 1 : Nat) : Int)))
      = (fun x : Int × Int × Nat =>
        decide (x.1 = ((i : Nat) : Int) ∧ x.2.1 = ((t + 1 : Nat) : Int))) := by
    have hsub : ((i + 1 : Nat) : Int) - 1 = ((i : Nat) : Int) := by
      push_cast; ring
    rw [hsub]
  have hfil2 : (tblock f 0 N ++ textras f N i
        ++ tblock f ((i + 1 : Nat) : Int) t).filter
      (fun x => decide (x.1 = ((i + 1 : Nat) : Int) - 1
        ∧ x.2.1 = ((t + 1 : Nat) : Int)))
      = [(((i : Nat) : Int), ((t + 1 : Nat) : Int), f (t + 1))] := by
    rw [hpred, List.filter_append]
    rw [E_filter_self (le_refl i) (by omega) (by omega)]
    rw [tblock_filter_out (Or.inl (by push_cast; omega)), List.append_nil]
  rw [hfil2]
  have hinc : ((i : Nat) : Int) + 1 = ((i + 1 : Nat) : Int) := by
    push_cast; ring
  show tblock f 0 N ++ textras f N i ++ tblock f ((i + 1 : Nat) : Int) t
      ++ [(((i : Nat) : Int) + 1, ((t + 1 : Nat) : Int), f (t + 1))]
    = tblock f 0 N ++ textras f N i ++ tblock f ((i + 1 : Nat) : Int) (t + 1)
  rw [hinc, tblock_succ, ← List.append_assoc]



lemma inner_fold (f : Nat → Nat) (N i : Nat) :
    ∀ (m t : Nat), t + m = N →
      (intRange (((t : Nat) : Int) + 1) (((N : Nat) : Int) + 1)).foldl
        (fun c ts => completionStepT ((i + 1 : Nat) : Int) ts c)
        (tblock f 0 N ++ textras f N i ++ tblock f ((i + 1 : Nat) : Int) t)
      = tblock f 0 N ++ textras f N i ++ tblock f ((i + 1 : Nat) : Int) N := by
  intro m
  induction m with
  | zero =>
    intro t ht
    have hteq : t = N := by omega
    subst hteq
    rw [intRange_eq_nil (le_refl _)]
    rfl
  | succ m' ih =>
    intro t ht
    rw [intRange_cons (by omega)]
    rw [List.foldl_cons]
    have hts : ((t : Nat) : Int) + 1 = ((t + 1 : Nat) : Int) := by omega
    rw [hts, stepT_fill (by omega)]
    have := ih (t + 1) (by omega)
    rw [← this]

lemma inner_fold_zero (f : Nat → Nat) (N : Nat) :
    ∀ (L : List Int), (∀ ts ∈ L, 1 ≤ ts ∧ ts ≤ (N : Int)) →
      L.foldl (fun c ts => completionStepT 0 ts c) (tblock f 0 N)
        = tblock f 0 N := by
  intro L
  induction L with
  | nil => intro _; rfl
  | cons ts L' ih =>
    intro h
    rw [List.foldl_cons]
    have hts := h ts (List.mem_cons_self _ _)
    have hstep : completionStepT 0 ts (tblock f 0 N) = tblock f 0 N := by
      unfold completionStepT
      have hcast : ts = ((ts.toNat : Nat) : Int) := by omega
      have hfil : (tblock f 0 N).filter
          (fun x => decide (x.1 = (0 : Int) ∧ x.2.1 = ts))
          = [((0 : Int), ts, f ts.toNat)] := by
        rw [hcast]
        have h0 : ((0 : Nat) : Int) = (0 : Int) := Nat.cast_zero
        rw [← h0]
        exact tblock_filter_self (by omega) (by omega)
      rw [hfil]
    rw [hstep]
    exact ih (fun x hx => h x (List.mem_cons_of_mem _ hx))

lemma outer_fold (f : Nat → Nat) (N : Nat) :
    ∀ (m a : Nat), 1 ≤ a → a + m = N →
      (intRange ((a : Nat) : Int) ((N : Nat) : Int)).foldl
        (fun cur fs =>
          (intRange 1 (((N : Nat) : Int) + 1)).foldl
            (fun c ts => completionStepT fs ts c) cur)
        (tblock f 0 N ++ textras f N (a - 1))
      = tblock f 0 N ++ textras f N (N - 1) := by
  intro m
  induction m with
  | zero =>
    intro a ha1 ha2
    have haN : a = N := by omega
    subst haN
    rw [intRange_eq_nil (le_refl _)]
    rfl
  | succ m' ih =>
    intro a ha1 ha2
    obtain ⟨i, rfl⟩ : ∃ i, a = i + 1 := ⟨a - 1, by omega⟩
    rw [intRange_cons (a := ((i + 1 : Nat) : Int)) (b := ((N : Nat) : Int))
      (by omega)]
    rw [List.foldl_cons]
    have hsimp : (i + 1) - 1 = i := by omega
    rw [hsimp]
    have hpass :
        (intRange 1 (((N : Nat) : Int) + 1)).foldl
          (fun c ts => completionStepT ((i + 1 : Nat) : Int) ts c)
          (tblock f 0 N ++ textras f N i)
        = tblock f 0 N ++ textras f N (i + 1) := by
      have h0 : tblock f ((i + 1 : Nat) : Int) 0 = [] := rfl
      have happ : tblock f 0 N ++ textras f N i
          = tblock f 0 N ++ textras f N i
            ++ tblock f ((i + 1 : Nat) : Int) 0 := by
        rw [h0, List.append_nil]
      have hone : (1 : Int) = ((0 : Nat) : Int) + 1 := by omega
      rw [happ]
      nth_rewrite 1 [hone]
      rw [inner_fold f N i N 0 (by omega)]
      rw [List.append_assoc]
      rfl
    rw [hpass]
    have := ih (i + 1 + 1) (by omega) (by omega)
    have hsimp2 : (i + 1 + 1) - 1 = i + 1 := by omega
    rw [hsimp2] at this
    have hcast : ((i + 1 + 1 : Nat) : Int) = ((i + 1 : Nat) : Int) + 1 := by
      omega
    rw [hcast] at this
    exact this



lemma baselineStates_triple (tax fld unit : String) (N : Nat) (f : Nat → Nat) :
    (baselineStates tax fld unit N f).map dsTriple = tblock f 0 N := by
  unfold baselineStates tblock
  rw [List.map_map]
  apply List.map_congr_left
  intro k _
  rfl

lemma baselineStates_decomp (tax fld unit : String) (n : Nat) (f : Nat → Nat) :
    baselineStates tax fld unit (n + 1) f
      = mkDamageState tax 0 ((1 : Nat) : Int) fld unit (f 1)
        :: (List.range n).map
          (fun k : Nat =>
            mkDamageState tax 0 ((k + 2 : Nat) : Int) fld unit (f (k + 2))) := by
  unfold baselineStates
  rw [List.range_succ_eq_map, List.map_cons, List.map_map]
  congr 1

lemma foldl_max_shift :
    ∀ (n : Nat) (a : Int),
      ((List.range n).map (fun k : Nat => ((k + 2 : Nat) : Int))).foldl max a
        = if n = 0 then a else max a ((n : Int) + 1) := by
  intro n
  induction n with
  | zero => intro a; rfl
  | succ m ih =>
    intro a
    rw [List.range_succ, List.map_append, List.foldl_append]
    simp only [List.map_cons, List.map_nil, List.foldl_cons, List.foldl_nil]
    rw [ih a]
    by_cases hm : m = 0
    · subst hm
      rw [if_pos rfl, if_neg (Nat.succ_ne_zero 0)]
      omega
    · rw [if_neg hm, if_neg (Nat.succ_ne_zero m)]
      omega

lemma add_missing_cons {F : Type} (d : DamageState F)
    (rest : List (DamageState F)) :
    add_damage_states_if_missing_to_dataset_list (d :: rest)
      = (intRange 0 ((rest.map (·.to_state)).foldl max d.to_state)).foldl
          (fun cur fs =>
            (intRange 1 ((rest.map (·.to_state)).foldl max d.to_state + 1)).foldl
              (fun c ts => completionStep fs ts c) cur) (d :: rest) := rfl

lemma add_missing_baseline_triple (tax fld unit : String) (N : Nat)
    (f : Nat → Nat) (hN : 1 ≤ N) :
    (add_damage_states_if_missing_to_dataset_list
        (baselineStates tax fld unit N f)).map dsTriple
      = tblock f 0 N ++ textras f N (N - 1) := by
  obtain ⟨n, rfl⟩ : ∃ n, N = n + 1 := ⟨N - 1, by omega⟩
  rw [baselineStates_decomp tax fld unit n f, add_missing_cons]
  have hmax : (((List.range n).map
        (fun k : Nat =>
          mkDamageState tax 0 ((k + 2 : Nat) : Int) fld unit
            (f (k + 2)))).map (·.to_state)).foldl max
      (mkDamageState tax 0 ((1 : Nat) : Int) fld unit (f 1)).to_state
      = ((n + 1 : Nat) : Int) := by
    rw [List.map_map]
    have hcomp : ((fun ds : DamageState Nat => ds.to_state) ∘
        (fun k : Nat =>
          mkDamageState tax 0 ((k + 2 : Nat) : Int) fld unit (f (k + 2))))
        = fun k : Nat => ((k + 2 : Nat) : Int) := rfl
    rw [hcomp, foldl_max_shift]
    by_cases hn : n = 0
    · subst hn
      rw [if_pos rfl]
      rfl
    · rw [if_neg hn]
      show max ((1 : Nat) : Int) ((n : Int) + 1) = ((n + 1 : Nat) : Int)
      omega
  rw [hmax]
  have hinner : ∀ (cur : List (DamageState Nat)) (fs : Int),
      ((intRange 1 (((n + 1 : Nat) : Int) + 1)).foldl
        (fun c ts => completionStep fs ts c) cur).map dsTriple
      = (intRange 1 (((n + 1 : Nat) : Int) + 1)).foldl
        (fun c ts => completionStepT fs ts c) (cur.map dsTriple) := by
    intro cur fs
    exact (List.foldl_hom (List.map dsTriple)
      (fun c ts => completionStep fs ts c)
      (fun c ts => completionStepT fs ts c)
      (intRange 1 (((n + 1 : Nat) : Int) + 1)) cur
      (fun x y => (completionStep_map fs y x).symm)).symm
  have houter :
      ((intRange 0 ((n + 1 : Nat) : Int)).foldl
        (fun cur fs =>
          (intRange 1 (((n + 1 : Nat) : Int) + 1)).foldl
            (fun c ts => completionStep fs ts c) cur)
        (mkDamageState tax 0 ((1 : Nat) : Int) fld unit (f 1)
          :: (List.range n).map
            (fun k : Nat =>
              mkDamageState tax 0 ((k + 2 : Nat) : Int) fld unit
                (f (k + 2))))).map dsTriple
      = (intRange 0 ((n + 1 : Nat) : Int)).foldl
          (fun cur fs =>
            (intRange 1 (((n + 1 : Nat) : Int) + 1)).foldl
              (fun c ts => completionStepT fs ts c) cur)
          (tblock f 0 (n + 1)) := by
    have hbase : (mkDamageState tax 0 ((1 : Nat) : Int) fld unit (f 1)
        :: (List.range n).map
          (fun k : Nat =>
            mkDamageState tax 0 ((k + 2 : Nat) : Int) fld unit
              (f (k + 2)))).map dsTriple = tblock f 0 (n + 1) := by
      rw [← baselineStates_decomp tax fld unit n f]
      exact baselineStates_triple tax fld unit (n + 1) f
    rw [← hbase]
    exact (List.foldl_hom (List.map dsTriple) _ _
      (intRange 0 ((n + 1 : Nat) : Int)) _
      (fun x y => (hinner x y).symm)).symm
  rw [houter]
  have hzero : intRange 0 ((n + 1 : Nat) : Int)
      = 0 :: intRange 1 ((n + 1 : Nat) : Int) := by
    rw [intRange_cons (by omega)]
    norm_num
  rw [hzero, List.foldl_cons]
  have hpass0 : (intRange 1 (((n + 1 : Nat) : Int) + 1)).foldl
      (fun c ts => completionStepT 0 ts c) (tblock f 0 (n + 1))
      = tblock f 0 (n + 1) := by
    apply inner_fold_zero
    intro ts hts
    have := mem_intRange.mp hts
    omega
  rw [hpass0]
  have hfin := outer_fold f (n + 1) n 1 (by omega) (by omega)
  have hcast1 : ((1 : Nat) : Int) = (1 : Int) := Nat.cast_one
  rw [hcast1] at hfin
  have htex : textras f (n + 1) (1 - 1) = [] := rfl
  rw [htex, List.append_nil] at hfin
  have hsub : (n + 1) - 1 = n := by omega
  rw [hsub] at hfin
  rw [hfin, hsub]



/-- C1: lattice completeness.  For a taxonomy whose parsed fragility data
contains only the baseline transitions `(0, k)` for `k = 1..N` (with an
arbitrary assignment `f` of fragility-function objects), the completed
damage-state list contains exactly one `DamageState` for every pair `(i, j)`
with `0 ≤ i < j ≤ N`; and every damage state's fragility function is the
object `f to_state` of the baseline `(0, to_state)` state — in particular,
for `i ≥ 1` the `(i, j)` state's function is reference-identical (the same
arena object, not a copy or a new fit) to the `(0, j)` state's function. -/
theorem C1_lattice_completeness (tax fld unit : String) (N : Nat)
    (f : Nat → Nat) (hN : 1 ≤ N) :
    (∀ i j : Int, 0 ≤ i → i < j → j ≤ (N : Int) →
      (add_damage_states_if_missing_to_dataset_list
          (baselineStates tax fld unit N f)).countP
        (fun ds => decide (ds.from_state = i ∧ ds.to_state = j)) = 1)
    ∧ ∀ ds ∈ add_damage_states_if_missing_to_dataset_list
        (baselineStates tax fld unit N f),
        ds.fragility_function = f ds.to_state.toNat := by
  have hchar := add_missing_baseline_triple tax fld unit N f hN
  constructor
  · intro i j hi hij hjN
    have hcount : (add_damage_states_if_missing_to_dataset_list
          (baselineStates tax fld unit N f)).countP
        (fun ds => decide (ds.from_state = i ∧ ds.to_state = j))
        = ((add_damage_states_if_missing_to_dataset_list
            (baselineStates tax fld unit N f)).map dsTriple).countP
          (fun x => decide (x.1 = i ∧ x.2.1 = j)) := by
      rw [List.countP_map]
      exact List.countP_congr (fun x _ => Iff.rfl)
    rw [hcount, hchar, List.countP_append,
      List.countP_eq_length_filter, List.countP_eq_length_filter]
    have hia : i = ((i.toNat : Nat) : Int) := by omega
    have hja : j = ((j.toNat : Nat) : Int) := by omega
    rw [hia, hja]
    by_cases ha0 : i.toNat = 0
    · rw [ha0]
      have h1 := @tblock_filter_self f (0 : Int) N j.toNat (by omega) (by omega)
      have hc0 : ((0 : Nat) : Int) = (0 : Int) := Nat.cast_zero
      rw [hc0, h1]
      rw [textras_filter_out (Or.inl (by omega))]
      rfl
    · rw [tblock_filter_out (Or.inl (by omega))]
      rw [textras_filter_self (by omega) (by omega) (by omega) (by omega)]
      rfl
  · intro ds hds
    have hmem : dsTriple ds ∈ (add_damage_states_if_missing_to_dataset_list
        (baselineStates tax fld unit N f)).map dsTriple :=
      List.mem_map_of_mem dsTriple hds
    rw [hchar] at hmem
    rcases List.mem_append.mp hmem with h | h
    · obtain ⟨j, h1, h2, heq⟩ := mem_tblock.mp h
      unfold dsTriple at heq
      simp only [Prod.mk.injEq] at heq
      rw [heq.2.2, heq.2.1, Int.toNat_natCast]
    · obtain ⟨a, j, h1, h2, h3, h4, heq⟩ := mem_textras h
      unfold dsTriple at heq
      simp only [Prod.mk.injEq] at heq
      rw [heq.2.2, heq.2.1, Int.toNat_natCast]

/-- Witness for C1: the two-state baseline build has exactly one `(1, 2)`
damage state. -/
theorem C1_lattice_completeness_witness :
    (1 ≤ 2)
    ∧ (add_damage_states_if_missing_to_dataset_list
        (baselineStates "URM1" "pga" "g" 2 (fun k => k))).countP
      (fun ds => decide (ds.from_state = 1 ∧ ds.to_state = 2)) = 1 :=
  ⟨by decide,
    (C1_lattice_completeness "URM1" "pga" "g" 2 (fun k => k) (by decide)).1
      1 2 (by decide) (by decide) (by decide)⟩

/-! ## C9 -- numerical reference values of the log-normal CDF -/


lemma ten_lt_exp : (10 : ℝ) < Real.exp (230259 / 100000) := by
  have hsum := Real.sum_le_exp_of_nonneg
    (x := (230259 / 100000 : ℝ)) (by norm_num) 15
  refine lt_of_lt_of_le ?_ hsum
  rw [Finset.sum_range_succ, Finset.sum_range_succ, Finset.sum_range_succ,
    Finset.sum_range_succ, Finset.sum_range_succ, Finset.sum_range_succ,
    Finset.sum_range_succ, Finset.sum_range_succ, Finset.sum_range_succ,
    Finset.sum_range_succ, Finset.sum_range_succ, Finset.sum_range_succ,
    Finset.sum_range_succ, Finset.sum_range_succ, Finset.sum_range_succ,
    Finset.sum_range_zero]
  norm_num [Nat.factorial]

lemma exp_lt_ten : Real.exp (230258 / 100000) < 10 := by
  have hx : |(230258 / 400000 : ℝ)| ≤ 1 := by
    rw [abs_of_nonneg (by norm_num)]
    norm_num
  have hb := Real.exp_bound hx (n := 8) (by norm_num)
  have habs : |(230258 / 400000 : ℝ)| = 230258 / 400000 :=
    abs_of_nonneg (by norm_num)
  rw [habs] at hb
  have hub : Real.exp (230258 / 400000)
      ≤ (∑ m ∈ Finset.range 8, (230258 / 400000 : ℝ) ^ m / m.factorial)
        + (230258 / 400000 : ℝ) ^ 8 * (9 / (Nat.factorial 8 * 8)) := by
    have h1 := (abs_le.mp hb).2
    push_cast at h1 ⊢
    linarith
  have hnum : (∑ m ∈ Finset.range 8, (230258 / 400000 : ℝ) ^ m / m.factorial)
      + (230258 / 400000 : ℝ) ^ 8 * (9 / (Nat.factorial 8 * 8))
      < 17782772 / 10000000 := by
    rw [Finset.sum_range_succ, Finset.sum_range_succ, Finset.sum_range_succ,
      Finset.sum_range_succ, Finset.sum_range_succ, Finset.sum_range_succ,
      Finset.sum_range_succ, Finset.sum_range_succ, Finset.sum_range_zero]
    norm_num [Nat.factorial]
  have hq : Real.exp (230258 / 400000) < 17782772 / 10000000 :=
    lt_of_le_of_lt hub hnum
  have h4 : (230258 / 100000 : ℝ) = (4 : ℕ) * (230258 / 400000) := by
    norm_num
  rw [h4, Real.exp_nat_mul]
  have hpow : Real.exp (230258 / 400000) ^ 4 < (17782772 / 10000000 : ℝ) ^ 4 :=
    pow_lt_pow_left₀ hq (Real.exp_pos _).le (by norm_num)
  refine lt_of_lt_of_le hpow ?_
  norm_num

lemma log_ten_bounds :
    (230258 / 100000 : ℝ) < Real.log 10
    ∧ Real.log 10 < 230259 / 100000 := by
  constructor
  · rw [Real.lt_log_iff_exp_lt (by norm_num)]
    exact exp_lt_ten
  · rw [Real.log_lt_iff_lt_exp (by norm_num)]
    exact ten_lt_exp



lemma gauss_integrand_continuous :
    Continuous (fun t : ℝ => Real.exp (-(t ^ 2) / 2)) := by
  continuity

lemma gauss_integral_mono {a b : ℝ} (hab : a ≤ b) :
    (∫ t in (0:ℝ)..a, Real.exp (-(t ^ 2) / 2))
      ≤ ∫ t in (0:ℝ)..b, Real.exp (-(t ^ 2) / 2) := by
  have hadj := intervalIntegral.integral_add_adjacent_intervals
    (gauss_integrand_continuous.intervalIntegrable
      (μ := MeasureTheory.volume) 0 a)
    (gauss_integrand_continuous.intervalIntegrable
      (μ := MeasureTheory.volume) a b)
  have hnn : (0:ℝ) ≤ ∫ t in a..b, Real.exp (-(t ^ 2) / 2) :=
    intervalIntegral.integral_nonneg hab (fun u _ => (Real.exp_pos _).le)
  linarith [hadj]

lemma stdNormalCdf_mono {a b : ℝ} (hab : a ≤ b) :
    stdNormalCdf a ≤ stdNormalCdf b := by
  unfold stdNormalCdf
  have hs : (0:ℝ) < Real.sqrt (2 * Real.pi) :=
    Real.sqrt_pos.mpr (by positivity)
  gcongr
  exact gauss_integral_mono hab

lemma integral_poly_eval (z a0 a2 a4 a6 a8 a10 a12 a14 : ℝ) :
    (∫ t in (0:ℝ)..z, (a0 + a2 * t ^ 2 + a4 * t ^ 4 + a6 * t ^ 6
        + a8 * t ^ 8 + a10 * t ^ 10 + a12 * t ^ 12 + a14 * t ^ 14))
      = a0 * z + a2 / 3 * z ^ 3 + a4 / 5 * z ^ 5 + a6 / 7 * z ^ 7
        + a8 / 9 * z ^ 9 + a10 / 11 * z ^ 11 + a12 / 13 * z ^ 13
        + a14 / 15 * z ^ 15 := by
  have hder : ∀ t : ℝ, HasDerivAt
      (fun u : ℝ => a0 * u + a2 / 3 * u ^ 3 + a4 / 5 * u ^ 5 + a6 / 7 * u ^ 7
        + a8 / 9 * u ^ 9 + a10 / 11 * u ^ 11 + a12 / 13 * u ^ 13
        + a14 / 15 * u ^ 15)
      (a0 + a2 * t ^ 2 + a4 * t ^ 4 + a6 * t ^ 6 + a8 * t ^ 8
        + a10 * t ^ 10 + a12 * t ^ 12 + a14 * t ^ 14) t := by
    intro t
    have h1 : HasDerivAt (fun u : ℝ => a0 * u) (a0 * 1) t :=
      (hasDerivAt_id t).const_mul a0
    have h3 : HasDerivAt (fun u : ℝ => a2 / 3 * u ^ 3)
        (a2 / 3 * (3 * t ^ 2)) t := (hasDerivAt_pow 3 t).const_mul (a2 / 3)
    have h5 : HasDerivAt (fun u : ℝ => a4 / 5 * u ^ 5)
        (a4 / 5 * (5 * t ^ 4)) t := (hasDerivAt_pow 5 t).const_mul (a4 / 5)
    have h7 : HasDerivAt (fun u : ℝ => a6 / 7 * u ^ 7)
        (a6 / 7 * (7 * t ^ 6)) t := (hasDerivAt_pow 7 t).const_mul (a6 / 7)
    have h9 : HasDerivAt (fun u : ℝ => a8 / 9 * u ^ 9)
        (a8 / 9 * (9 * t ^ 8)) t := (hasDerivAt_pow 9 t).const_mul (a8 / 9)
    have h11 : HasDerivAt (fun u : ℝ => a10 / 11 * u ^ 11)
        (a10 / 11 * (11 * t ^ 10)) t :=
      (hasDerivAt_pow 11 t).const_mul (a10 / 11)
    have h13 : HasDerivAt (fun u : ℝ => a12 / 13 * u ^ 13)
        (a12 / 13 * (13 * t ^ 12)) t :=
      (hasDerivAt_pow 13 t).const_mul (a12 / 13)
    have h15 : HasDerivAt (fun u : ℝ => a14 / 15 * u ^ 15)
        (a14 / 15 * (15 * t ^ 14)) t :=
      (hasDerivAt_pow 15 t).const_mul (a14 / 15)
    have hsum := ((((((h1.add h3).add h5).add h7).add h9).add h11).add
      h13).add h15
    convert hsum using 1
    ring
  rw [intervalIntegral.integral_eq_sub_of_hasDerivAt
    (fun x _ => hder x)
    ((by continuity : Continuous (fun t : ℝ => a0 + a2 * t ^ 2 + a4 * t ^ 4
      + a6 * t ^ 6 + a8 * t ^ 8 + a10 * t ^ 10 + a12 * t ^ 12
      + a14 * t ^ 14)).intervalIntegrable 0 z)]
  ring



lemma exp_pointwise (t : ℝ) (h2 : t ^ 2 ≤ 2) :
    ((1 : ℝ) + (-1/2) * t^2 + (1/8) * t^4 + (-1/48) * t^6 + (1/384) * t^8
        + (-1/3840) * t^10 + (1/46080) * t^12 + (-1/564480) * t^14
      ≤ Real.exp (-(t^2)/2))
    ∧ (Real.exp (-(t^2)/2)
      ≤ (1 : ℝ) + (-1/2) * t^2 + (1/8) * t^4 + (-1/48) * t^6 + (1/384) * t^8
        + (-1/3840) * t^10 + (1/46080) * t^12 + (1/564480) * t^14) := by
  have hxabs : |(-(t^2)/2 : ℝ)| = t^2/2 := by
    have h : (-(t^2)/2 : ℝ) = -(t^2/2) := by ring
    rw [h, abs_neg, abs_of_nonneg (by positivity)]
  have hx : |(-(t^2)/2 : ℝ)| ≤ 1 := by
    rw [hxabs]
    linarith
  have hb := Real.exp_bound hx (n := 7) (by norm_num)
  have hsum : ∑ m ∈ Finset.range 7, (-(t^2)/2)^m / (m.factorial : ℝ)
      = (1 : ℝ) + (-1/2) * t^2 + (1/8) * t^4 + (-1/48) * t^6 + (1/384) * t^8
        + (-1/3840) * t^10 + (1/46080) * t^12 := by
    rw [Finset.sum_range_succ, Finset.sum_range_succ, Finset.sum_range_succ,
      Finset.sum_range_succ, Finset.sum_range_succ, Finset.sum_range_succ,
      Finset.sum_range_succ, Finset.sum_range_zero]
    norm_num [Nat.factorial]
    ring
  rw [hsum, hxabs] at hb
  have hrem : (t^2/2 : ℝ)^7
      * ((Nat.succ 7 : ℝ) / ((Nat.factorial 7 : ℝ) * ((7 : ℕ) : ℝ)))
      = (1/564480) * t^14 := by
    norm_num [Nat.factorial]
    ring
  rw [hrem] at hb
  obtain ⟨hlo, hhi⟩ := abs_le.mp hb
  constructor
  · linarith
  · linarith

lemma I_lower_bound (z : ℝ) (h0 : 0 ≤ z) (h1 : z ≤ 63/50) :
    z - z^3/6 + z^5/40 - z^7/336 + z^9/3456 - z^11/42240 + z^13/599040
        - z^15/8467200
      ≤ ∫ t in (0:ℝ)..z, Real.exp (-(t^2)/2) := by
  have key : (∫ t in (0:ℝ)..z, ((1:ℝ) + (-1/2) * t^2 + (1/8)*t^4
        + (-1/48)*t^6 + (1/384)*t^8 + (-1/3840)*t^10 + (1/46080)*t^12
        + (-1/564480)*t^14))
      ≤ ∫ t in (0:ℝ)..z, Real.exp (-(t^2)/2) := by
    apply intervalIntegral.integral_mono_on h0
    · exact (by continuity : Continuous (fun t : ℝ => (1:ℝ) + (-1/2) * t^2
        + (1/8)*t^4 + (-1/48)*t^6 + (1/384)*t^8 + (-1/3840)*t^10
        + (1/46080)*t^12 + (-1/564480)*t^14)).intervalIntegrable 0 z
    · exact gauss_integrand_continuous.intervalIntegrable 0 z
    · intro x hx
      have hx2 : x ^ 2 ≤ 2 := by
        rcases hx with ⟨hx0, hxz⟩
        nlinarith
      exact (exp_pointwise x hx2).1
  rw [integral_poly_eval] at key
  calc z - z^3/6 + z^5/40 - z^7/336 + z^9/3456 - z^11/42240 + z^13/599040
        - z^15/8467200
      = (1:ℝ) * z + (-1/2) / 3 * z ^ 3 + (1/8) / 5 * z ^ 5
        + (-1/48) / 7 * z ^ 7 + (1/384) / 9 * z ^ 9 + (-1/3840) / 11 * z ^ 11
        + (1/46080) / 13 * z ^ 13 + (-1/564480) / 15 * z ^ 15 := by ring
    _ ≤ ∫ t in (0:ℝ)..z, Real.exp (-(t^2)/2) := key

lemma I_upper_bound (z : ℝ) (h0 : 0 ≤ z) (h1 : z ≤ 63/50) :
    (∫ t in (0:ℝ)..z, Real.exp (-(t^2)/2))
      ≤ z - z^3/6 + z^5/40 - z^7/336 + z^9/3456 - z^11/42240 + z^13/599040
        + z^15/8467200 := by
  have key : (∫ t in (0:ℝ)..z, Real.exp (-(t^2)/2))
      ≤ ∫ t in (0:ℝ)..z, ((1:ℝ) + (-1/2) * t^2 + (1/8)*t^4
        + (-1/48)*t^6 + (1/384)*t^8 + (-1/3840)*t^10 + (1/46080)*t^12
        + (1/564480)*t^14) := by
    apply intervalIntegral.integral_mono_on h0
    · exact gauss_integrand_continuous.intervalIntegrable 0 z
    · exact (by continuity : Continuous (fun t : ℝ => (1:ℝ) + (-1/2) * t^2
        + (1/8)*t^4 + (-1/48)*t^6 + (1/384)*t^8 + (-1/3840)*t^10
        + (1/46080)*t^12 + (1/564480)*t^14)).intervalIntegrable 0 z
    · intro x hx
      have hx2 : x ^ 2 ≤ 2 := by
        rcases hx with ⟨hx0, hxz⟩
        nlinarith
      exact (exp_pointwise x hx2).2
  rw [integral_poly_eval] at key
  calc (∫ t in (0:ℝ)..z, Real.exp (-(t^2)/2))
      ≤ (1:ℝ) * z + (-1/2) / 3 * z ^ 3 + (1/8) / 5 * z ^ 5
        + (-1/48) / 7 * z ^ 7 + (1/384) / 9 * z ^ 9 + (-1/3840) / 11 * z ^ 11
        + (1/46080) / 13 * z ^ 13 + (1/564480) / 15 * z ^ 15 := key
    _ = z - z^3/6 + z^5/40 - z^7/336 + z^9/3456 - z^11/42240 + z^13/599040
        + z^15/8467200 := by ring



lemma sqrt_two_pi_bounds :
    (250662/100000 : ℝ) < Real.sqrt (2 * Real.pi)
    ∧ Real.sqrt (2 * Real.pi) < 250663/100000 := by
  constructor
  · rw [Real.lt_sqrt (by norm_num)]
    have := Real.pi_gt_d6
    nlinarith
  · rw [Real.sqrt_lt' (by norm_num)]
    have := Real.pi_lt_d6
    nlinarith

/-- C9: the log-normal fragility function for `mean = 5.9`, `stddev = 0.8`
evaluates to `0` at intensity `0` (so within `0.0001` of `0`) and to a value
in `(0.896, 0.897)` at intensity `1000`. -/
theorem C9_lognormal_reference :
    |logncdf (59/10) (8/10) 0| < 1/10000
    ∧ (0.896 : ℝ) < logncdf (59/10) (8/10) 1000
    ∧ logncdf (59/10) (8/10) 1000 < 0.897 := by
  have h0 : logncdf (59/10) (8/10) 0 = 0 := by
    unfold logncdf
    rw [if_pos le_rfl]
  have hval : logncdf (59/10) (8/10) 1000
      = stdNormalCdf ((Real.log 1000 - 59/10) / (8/10)) := by
    unfold logncdf
    rw [if_neg (by norm_num)]
  have hlog1000 : Real.log 1000 = 3 * Real.log 10 := by
    have h : (1000 : ℝ) = 10 ^ (3 : ℕ) := by norm_num
    rw [h, Real.log_pow]
    norm_num
  obtain ⟨hl10, hu10⟩ := log_ten_bounds
  have hz1 : (50387/40000 : ℝ) < (Real.log 1000 - 59/10) / (8/10) := by
    rw [lt_div_iff₀ (by norm_num : (0:ℝ) < 8/10), hlog1000]
    linarith
  have hz2 : (Real.log 1000 - 59/10) / (8/10) < 100777/80000 := by
    rw [div_lt_iff₀ (by norm_num : (0:ℝ) < 8/10), hlog1000]
    linarith
  obtain ⟨hs1, hs2⟩ := sqrt_two_pi_bounds
  have hs0 : (0:ℝ) < Real.sqrt (2 * Real.pi) := by linarith
  have hlower : (0.896 : ℝ) < stdNormalCdf (50387/40000) := by
    unfold stdNormalCdf
    have hI := I_lower_bound (50387/40000) (by norm_num) (by norm_num)
    have hA : (99265 / 100000 : ℝ)
        ≤ (50387/40000 : ℝ) - (50387/40000:ℝ)^3/6 + (50387/40000:ℝ)^5/40
          - (50387/40000:ℝ)^7/336 + (50387/40000:ℝ)^9/3456
          - (50387/40000:ℝ)^11/42240 + (50387/40000:ℝ)^13/599040
          - (50387/40000:ℝ)^15/8467200 := by
      norm_num
    have hIlow : (99265 / 100000 : ℝ)
        ≤ ∫ t in (0:ℝ)..(50387/40000 : ℝ), Real.exp (-(t^2)/2) := by
      linarith
    have hmul : (0.396 : ℝ) * Real.sqrt (2 * Real.pi)
        < 99265 / 100000 := by
      nlinarith
    have hdiv : (0.396 : ℝ)
        < (∫ t in (0:ℝ)..(50387/40000 : ℝ), Real.exp (-(t^2)/2))
          / Real.sqrt (2 * Real.pi) := by
      rw [lt_div_iff₀ hs0]
      linarith
    linarith
  have hupper : stdNormalCdf (100777/80000) < 0.897 := by
    unfold stdNormalCdf
    have hI := I_upper_bound (100777/80000) (by norm_num) (by norm_num)
    have hA : (100777/80000 : ℝ) - (100777/80000:ℝ)^3/6
          + (100777/80000:ℝ)^5/40 - (100777/80000:ℝ)^7/336
          + (100777/80000:ℝ)^9/3456 - (100777/80000:ℝ)^11/42240
          + (100777/80000:ℝ)^13/599040 + (100777/80000:ℝ)^15/8467200
        ≤ (99295 / 100000 : ℝ) := by
      norm_num
    have hIhigh : (∫ t in (0:ℝ)..(100777/80000 : ℝ), Real.exp (-(t^2)/2))
        ≤ 99295 / 100000 := by
      linarith
    have hmul : (99295 / 100000 : ℝ)
        < (0.397 : ℝ) * Real.sqrt (2 * Real.pi) := by
      nlinarith
    have hdiv : (∫ t in (0:ℝ)..(100777/80000 : ℝ), Real.exp (-(t^2)/2))
          / Real.sqrt (2 * Real.pi) < (0.397 : ℝ) := by
      rw [div_lt_iff₀ hs0]
      linarith
    linarith
  have hmono1 := stdNormalCdf_mono (le_of_lt hz1)
  have hmono2 := stdNormalCdf_mono (le_of_lt hz2)
  refine ⟨by rw [h0]; norm_num, ?_, ?_⟩
  · rw [hval]
    exact lt_of_lt_of_le hlower hmono1
  · rw [hval]
    exact lt_of_le_of_lt hmono2 hupper

end Deus
